import Mathlib

/-! Stake module: error taxonomy, public forwarding layer, address fixture.

A shallow embedding of `x/stake/types/errors.go` (the error codes and the 22
error constructors), of the error section of `x/stake/stake.go` (the public
package that forwards to `types`) and of the `testAddr` fixture of
`x/gov/test_common.go`, followed by a model of the bonding core behind
`stake.NewKeeper` and by the properties the specification states about them.
-/

set_option maxRecDepth 4000

/-! ## The SDK error value -/

namespace sdk

/-- Numeric error code (`sdk.CodeType`, an unsigned machine integer). -/
abbrev CodeType := Nat

/-- Numeric codespace (`sdk.CodespaceType`, an unsigned machine integer). -/
abbrev CodespaceType := Nat

/-- Modelled from the spec: the value behind the `sdk.Error` interface, which is
declared in the SDK `types` package and is not part of the sources at hand.
The specification says that errors are typed by category, "each carrying a code
and a human-readable message"; the constructors pass a codespace as well. -/
structure Error where
  codespace : CodespaceType
  code : CodeType
  msg : String
  deriving DecidableEq, Repr

/-- Modelled from the spec: `sdk.NewError(codespace, code, msg)`, declared in the
SDK `types` package and not part of the sources at hand. It builds the error
carrying exactly the codespace, the code and the message it is given. -/
def NewError (codespace : CodespaceType) (code : CodeType) (msg : String) : Error :=
  { codespace := codespace, code := code, msg := msg }

/-- The three codes that `types/errors.go` takes from the SDK `types` package
(`sdk.CodeUnauthorized`, `sdk.CodeInternal`, `sdk.CodeUnknownRequest`). Their
numeric values are declared outside the sources at hand, so they are a
parameter of the development. -/
structure RootCodes where
  CodeUnauthorized : CodeType
  CodeInternal : CodeType
  CodeUnknownRequest : CodeType
  deriving DecidableEq, Repr

end sdk

/-! ## The fragment of Go `fmt.Sprintf` used by the constructors -/

namespace fmt

/-- An operand handed to `Sprintf`: the constructors pass strings and `int`s. -/
inductive Operand where
  | str (s : String)
  | int (i : Int)
  deriving DecidableEq, Repr

/-- Decimal rendering of a Go `int`: digits, with a leading `-` when negative. -/
def decimal (i : Int) : String := toString i

/-- What the verb `%v` prints for an operand: a string as it is, an integer in decimal. -/
def Operand.render : Operand → List Char
  | .str s => s.data
  | .int i => (decimal i).data

/-- The Go type name of an operand, as printed in the diagnostics of `Sprintf`. -/
def Operand.typeName : Operand → List Char
  | .str _ => "string".data
  | .int _ => "int".data

/-- One `type=value` item of a diagnostic. -/
def Operand.typed (a : Operand) : List Char :=
  a.typeName ++ '=' :: a.render

/-- The comma-separated `type=value` list of the operands no verb consumed. -/
def extraItems : List Operand → List Char
  | [] => []
  | [a] => a.typed
  | a :: b :: rest => a.typed ++ ", ".data ++ extraItems (b :: rest)

/-- The formatting loop of `Sprintf` over the characters of the format string.
Plain characters are copied. `%v` prints the next operand, `%s` a string
operand and `%d` an integer operand; `%%` prints a percent sign. A verb with no
operand left prints `%!c(MISSING)`, a lone `%` at the end prints `%!(NOVERB)`,
and a verb that does not fit its operand prints the bad-verb form
`%!c(type=value)`; the verbs other than `v`, `s` and `d`, which the
constructors never use, are all treated as not fitting. Operands left over at
the end are reported as `%!(EXTRA ...)`. -/
def sprintfLoop : List Char → List Operand → List Char
  | [], [] => []
  | [], a :: rest => "%!(EXTRA ".data ++ extraItems (a :: rest) ++ [')']
  | '%' :: [], args => "%!(NOVERB)".data ++ sprintfLoop [] args
  | '%' :: '%' :: cs, args => '%' :: sprintfLoop cs args
  | '%' :: 'v' :: cs, a :: rest => a.render ++ sprintfLoop cs rest
  | '%' :: 's' :: cs, .str s :: rest => s.data ++ sprintfLoop cs rest
  | '%' :: 'd' :: cs, .int i :: rest => (decimal i).data ++ sprintfLoop cs rest
  | '%' :: c :: cs, a :: rest => ('%' :: '!' :: c :: '(' :: a.typed) ++ ')' :: sprintfLoop cs rest
  | '%' :: c :: cs, [] => ('%' :: '!' :: c :: "(MISSING)".data) ++ sprintfLoop cs []
  | c :: cs, args => c :: sprintfLoop cs args

/-- Go `fmt.Sprintf(format, args...)` on the fragment above. -/
def Sprintf (format : String) (args : List Operand) : String :=
  String.mk (sprintfLoop format.data args)

end fmt

/-! ## `x/stake/types/errors.go` -/

namespace types

open sdk

abbrev CodeType := sdk.CodeType

def DefaultCodespace : CodespaceType := 4

def CodeInvalidValidator : CodeType := 101
def CodeInvalidDelegation : CodeType := 102
def CodeInvalidInput : CodeType := 103
def CodeValidatorJailed : CodeType := 104
def CodeUnauthorized (root : RootCodes) : CodeType := root.CodeUnauthorized
def CodeInternal (root : RootCodes) : CodeType := root.CodeInternal
def CodeUnknownRequest (root : RootCodes) : CodeType := root.CodeUnknownRequest

-- validator
def ErrNilValidatorAddr (codespace : CodespaceType) : Error :=
  NewError codespace CodeInvalidInput "validator address is nil"
def ErrNoValidatorFound (codespace : CodespaceType) : Error :=
  NewError codespace CodeInvalidValidator "validator does not exist for that address"
def ErrValidatorAlreadyExists (codespace : CodespaceType) : Error :=
  NewError codespace CodeInvalidValidator "validator already exist, cannot re-create validator"
def ErrValidatorRevoked (codespace : CodespaceType) : Error :=
  NewError codespace CodeInvalidValidator "validator for this address is currently revoked"
def ErrBadRemoveValidator (codespace : CodespaceType) : Error :=
  NewError codespace CodeInvalidValidator "error removing validator"
def ErrDescriptionLength (codespace : CodespaceType) (descriptor : String) (got max : Int) : Error :=
  let msg := fmt.Sprintf "bad description length for %v, got length %v, max is %v"
    [.str descriptor, .int got, .int max]
  NewError codespace CodeInvalidValidator msg
def ErrCommissionNegative (codespace : CodespaceType) : Error :=
  NewError codespace CodeInvalidValidator "commission must be positive"
def ErrCommissionHuge (codespace : CodespaceType) : Error :=
  NewError codespace CodeInvalidValidator "commission cannot be more than 100%"

-- delegation
def ErrNilDelegatorAddr (codespace : CodespaceType) : Error :=
  NewError codespace CodeInvalidInput "delegator address is nil"
def ErrBadDenom (codespace : CodespaceType) : Error :=
  NewError codespace CodeInvalidDelegation "invalid coin denomination"
def ErrBadDelegationAmount (codespace : CodespaceType) : Error :=
  NewError codespace CodeInvalidDelegation "amount must be > 0"
def ErrNoDelegation (codespace : CodespaceType) : Error :=
  NewError codespace CodeInvalidDelegation "no delegation for this (address, validator) pair"
def ErrBadDelegatorAddr (codespace : CodespaceType) : Error :=
  NewError codespace CodeInvalidDelegation "delegator does not exist for that address"
def ErrNoDelegatorForAddress (codespace : CodespaceType) : Error :=
  NewError codespace CodeInvalidDelegation "delegator does not contain this delegation"
def ErrInsufficientShares (codespace : CodespaceType) : Error :=
  NewError codespace CodeInvalidDelegation "insufficient delegation shares"
def ErrDelegationValidatorEmpty (codespace : CodespaceType) : Error :=
  NewError codespace CodeInvalidDelegation "cannot delegate to an empty validator"
def ErrNotEnoughDelegationShares (codespace : CodespaceType) (shares : String) : Error :=
  NewError codespace CodeInvalidDelegation
    (fmt.Sprintf "not enough shares only have %v" [.str shares])
def ErrBadSharesAmount (codespace : CodespaceType) : Error :=
  NewError codespace CodeInvalidDelegation "shares must be > 0"
def ErrBadSharesPercent (codespace : CodespaceType) : Error :=
  NewError codespace CodeInvalidDelegation "shares percent must be >0 and <=1"

-- messages
def ErrBothShareMsgsGiven (codespace : CodespaceType) : Error :=
  NewError codespace CodeInvalidInput "both shares amount and shares percent provided"
def ErrNeitherShareMsgsGiven (codespace : CodespaceType) : Error :=
  NewError codespace CodeInvalidInput "neither shares amount nor shares percent provided"
def ErrMissingSignature (codespace : CodespaceType) : Error :=
  NewError codespace CodeInvalidValidator "missing signature"

end types

/-! ## The declarations of `types/errors.go` as a table -/

namespace types

open sdk

/-- The three shapes of error constructor in `types/errors.go`: codespace only,
codespace with a descriptor and two lengths, codespace with a shares string. -/
inductive ErrFn where
  | plain (f : CodespaceType → Error)
  | descriptionLength (f : CodespaceType → String → Int → Int → Error)
  | shares (f : CodespaceType → String → Error)

/-- Every `func Err...` declared in `types/errors.go`, by name, in file order. -/
def errorConstructors : List (String × ErrFn) :=
  [
    ("ErrNilValidatorAddr", .plain ErrNilValidatorAddr),
    ("ErrNoValidatorFound", .plain ErrNoValidatorFound),
    ("ErrValidatorAlreadyExists", .plain ErrValidatorAlreadyExists),
    ("ErrValidatorRevoked", .plain ErrValidatorRevoked),
    ("ErrBadRemoveValidator", .plain ErrBadRemoveValidator),
    ("ErrDescriptionLength", .descriptionLength ErrDescriptionLength),
    ("ErrCommissionNegative", .plain ErrCommissionNegative),
    ("ErrCommissionHuge", .plain ErrCommissionHuge),
    ("ErrNilDelegatorAddr", .plain ErrNilDelegatorAddr),
    ("ErrBadDenom", .plain ErrBadDenom),
    ("ErrBadDelegationAmount", .plain ErrBadDelegationAmount),
    ("ErrNoDelegation", .plain ErrNoDelegation),
    ("ErrBadDelegatorAddr", .plain ErrBadDelegatorAddr),
    ("ErrNoDelegatorForAddress", .plain ErrNoDelegatorForAddress),
    ("ErrInsufficientShares", .plain ErrInsufficientShares),
    ("ErrDelegationValidatorEmpty", .plain ErrDelegationValidatorEmpty),
    ("ErrNotEnoughDelegationShares", .shares ErrNotEnoughDelegationShares),
    ("ErrBadSharesAmount", .plain ErrBadSharesAmount),
    ("ErrBadSharesPercent", .plain ErrBadSharesPercent),
    ("ErrBothShareMsgsGiven", .plain ErrBothShareMsgsGiven),
    ("ErrNeitherShareMsgsGiven", .plain ErrNeitherShareMsgsGiven),
    ("ErrMissingSignature", .plain ErrMissingSignature) ]

/-- Every constant declared in the `const` block of `types/errors.go`, by name. -/
def constants (root : RootCodes) : List (String × Nat) :=
  [
    ("DefaultCodespace", DefaultCodespace),
    ("CodeInvalidValidator", CodeInvalidValidator),
    ("CodeInvalidDelegation", CodeInvalidDelegation),
    ("CodeInvalidInput", CodeInvalidInput),
    ("CodeValidatorJailed", CodeValidatorJailed),
    ("CodeUnauthorized", CodeUnauthorized root),
    ("CodeInternal", CodeInternal root),
    ("CodeUnknownRequest", CodeUnknownRequest root) ]

/-- A call of one of the error constructors of `types/errors.go`, the codespace
left open: the constructor chosen, with its extra arguments when it has any. -/
inductive ErrCall where
  | ErrNilValidatorAddr
  | ErrNoValidatorFound
  | ErrValidatorAlreadyExists
  | ErrValidatorRevoked
  | ErrBadRemoveValidator
  | ErrDescriptionLength (descriptor : String) (got max : Int)
  | ErrCommissionNegative
  | ErrCommissionHuge
  | ErrNilDelegatorAddr
  | ErrBadDenom
  | ErrBadDelegationAmount
  | ErrNoDelegation
  | ErrBadDelegatorAddr
  | ErrNoDelegatorForAddress
  | ErrInsufficientShares
  | ErrDelegationValidatorEmpty
  | ErrNotEnoughDelegationShares (shares : String)
  | ErrBadSharesAmount
  | ErrBadSharesPercent
  | ErrBothShareMsgsGiven
  | ErrNeitherShareMsgsGiven
  | ErrMissingSignature
  deriving DecidableEq, Repr

/-- The name of the constructor a call goes to. -/
def ErrCall.name : ErrCall → String
  | .ErrNilValidatorAddr => "ErrNilValidatorAddr"
  | .ErrNoValidatorFound => "ErrNoValidatorFound"
  | .ErrValidatorAlreadyExists => "ErrValidatorAlreadyExists"
  | .ErrValidatorRevoked => "ErrValidatorRevoked"
  | .ErrBadRemoveValidator => "ErrBadRemoveValidator"
  | .ErrDescriptionLength _ _ _ => "ErrDescriptionLength"
  | .ErrCommissionNegative => "ErrCommissionNegative"
  | .ErrCommissionHuge => "ErrCommissionHuge"
  | .ErrNilDelegatorAddr => "ErrNilDelegatorAddr"
  | .ErrBadDenom => "ErrBadDenom"
  | .ErrBadDelegationAmount => "ErrBadDelegationAmount"
  | .ErrNoDelegation => "ErrNoDelegation"
  | .ErrBadDelegatorAddr => "ErrBadDelegatorAddr"
  | .ErrNoDelegatorForAddress => "ErrNoDelegatorForAddress"
  | .ErrInsufficientShares => "ErrInsufficientShares"
  | .ErrDelegationValidatorEmpty => "ErrDelegationValidatorEmpty"
  | .ErrNotEnoughDelegationShares _ => "ErrNotEnoughDelegationShares"
  | .ErrBadSharesAmount => "ErrBadSharesAmount"
  | .ErrBadSharesPercent => "ErrBadSharesPercent"
  | .ErrBothShareMsgsGiven => "ErrBothShareMsgsGiven"
  | .ErrNeitherShareMsgsGiven => "ErrNeitherShareMsgsGiven"
  | .ErrMissingSignature => "ErrMissingSignature"

/-- The error a call returns for a codespace. -/
def ErrCall.apply : ErrCall → CodespaceType → Error
  | .ErrNilValidatorAddr, cs => types.ErrNilValidatorAddr cs
  | .ErrNoValidatorFound, cs => types.ErrNoValidatorFound cs
  | .ErrValidatorAlreadyExists, cs => types.ErrValidatorAlreadyExists cs
  | .ErrValidatorRevoked, cs => types.ErrValidatorRevoked cs
  | .ErrBadRemoveValidator, cs => types.ErrBadRemoveValidator cs
  | .ErrDescriptionLength d got max, cs => types.ErrDescriptionLength cs d got max
  | .ErrCommissionNegative, cs => types.ErrCommissionNegative cs
  | .ErrCommissionHuge, cs => types.ErrCommissionHuge cs
  | .ErrNilDelegatorAddr, cs => types.ErrNilDelegatorAddr cs
  | .ErrBadDenom, cs => types.ErrBadDenom cs
  | .ErrBadDelegationAmount, cs => types.ErrBadDelegationAmount cs
  | .ErrNoDelegation, cs => types.ErrNoDelegation cs
  | .ErrBadDelegatorAddr, cs => types.ErrBadDelegatorAddr cs
  | .ErrNoDelegatorForAddress, cs => types.ErrNoDelegatorForAddress cs
  | .ErrInsufficientShares, cs => types.ErrInsufficientShares cs
  | .ErrDelegationValidatorEmpty, cs => types.ErrDelegationValidatorEmpty cs
  | .ErrNotEnoughDelegationShares s, cs => types.ErrNotEnoughDelegationShares cs s
  | .ErrBadSharesAmount, cs => types.ErrBadSharesAmount cs
  | .ErrBadSharesPercent, cs => types.ErrBadSharesPercent cs
  | .ErrBothShareMsgsGiven, cs => types.ErrBothShareMsgsGiven cs
  | .ErrNeitherShareMsgsGiven, cs => types.ErrNeitherShareMsgsGiven cs
  | .ErrMissingSignature, cs => types.ErrMissingSignature cs

end types

/-! ## `x/stake/stake.go`: the error section of the public package -/

namespace stake

open sdk

-- errors

def DefaultCodespace := types.DefaultCodespace
def CodeInvalidValidator := types.CodeInvalidValidator
def CodeInvalidDelegation := types.CodeInvalidDelegation
def CodeInvalidInput := types.CodeInvalidInput
def CodeValidatorJailed := types.CodeValidatorJailed
def CodeUnauthorized (root : RootCodes) := types.CodeUnauthorized root
def CodeInternal (root : RootCodes) := types.CodeInternal root
def CodeUnknownRequest (root : RootCodes) := types.CodeUnknownRequest root

def ErrNilValidatorAddr := types.ErrNilValidatorAddr
def ErrNoValidatorFound := types.ErrNoValidatorFound
def ErrValidatorAlreadyExists := types.ErrValidatorAlreadyExists
def ErrValidatorRevoked := types.ErrValidatorRevoked
def ErrBadRemoveValidator := types.ErrBadRemoveValidator
def ErrDescriptionLength := types.ErrDescriptionLength
def ErrCommissionNegative := types.ErrCommissionNegative
def ErrCommissionHuge := types.ErrCommissionHuge
def ErrNilDelegatorAddr := types.ErrNilDelegatorAddr
def ErrBadDenom := types.ErrBadDenom
def ErrBadDelegationAmount := types.ErrBadDelegationAmount
def ErrNoDelegation := types.ErrNoDelegation
def ErrBadDelegatorAddr := types.ErrBadDelegatorAddr
def ErrNoDelegatorForAddress := types.ErrNoDelegatorForAddress
def ErrInsufficientShares := types.ErrInsufficientShares
def ErrDelegationValidatorEmpty := types.ErrDelegationValidatorEmpty
def ErrNotEnoughDelegationShares := types.ErrNotEnoughDelegationShares
def ErrBadSharesAmount := types.ErrBadSharesAmount
def ErrBadSharesPercent := types.ErrBadSharesPercent
def ErrBothShareMsgsGiven := types.ErrBothShareMsgsGiven
def ErrNeitherShareMsgsGiven := types.ErrNeitherShareMsgsGiven
def ErrMissingSignature := types.ErrMissingSignature

/-- Every `Err...` variable of the `var` block of `stake.go`, by name, in file order. -/
def errorVars : List (String × types.ErrFn) :=
  [
    ("ErrNilValidatorAddr", .plain ErrNilValidatorAddr),
    ("ErrNoValidatorFound", .plain ErrNoValidatorFound),
    ("ErrValidatorAlreadyExists", .plain ErrValidatorAlreadyExists),
    ("ErrValidatorRevoked", .plain ErrValidatorRevoked),
    ("ErrBadRemoveValidator", .plain ErrBadRemoveValidator),
    ("ErrDescriptionLength", .descriptionLength ErrDescriptionLength),
    ("ErrCommissionNegative", .plain ErrCommissionNegative),
    ("ErrCommissionHuge", .plain ErrCommissionHuge),
    ("ErrNilDelegatorAddr", .plain ErrNilDelegatorAddr),
    ("ErrBadDenom", .plain ErrBadDenom),
    ("ErrBadDelegationAmount", .plain ErrBadDelegationAmount),
    ("ErrNoDelegation", .plain ErrNoDelegation),
    ("ErrBadDelegatorAddr", .plain ErrBadDelegatorAddr),
    ("ErrNoDelegatorForAddress", .plain ErrNoDelegatorForAddress),
    ("ErrInsufficientShares", .plain ErrInsufficientShares),
    ("ErrDelegationValidatorEmpty", .plain ErrDelegationValidatorEmpty),
    ("ErrNotEnoughDelegationShares", .shares ErrNotEnoughDelegationShares),
    ("ErrBadSharesAmount", .plain ErrBadSharesAmount),
    ("ErrBadSharesPercent", .plain ErrBadSharesPercent),
    ("ErrBothShareMsgsGiven", .plain ErrBothShareMsgsGiven),
    ("ErrNeitherShareMsgsGiven", .plain ErrNeitherShareMsgsGiven),
    ("ErrMissingSignature", .plain ErrMissingSignature) ]

/-- Every constant of the `const` block of `stake.go`, by name. -/
def constants (root : RootCodes) : List (String × Nat) :=
  [
    ("DefaultCodespace", DefaultCodespace),
    ("CodeInvalidValidator", CodeInvalidValidator),
    ("CodeInvalidDelegation", CodeInvalidDelegation),
    ("CodeInvalidInput", CodeInvalidInput),
    ("CodeValidatorJailed", CodeValidatorJailed),
    ("CodeUnauthorized", CodeUnauthorized root),
    ("CodeInternal", CodeInternal root),
    ("CodeUnknownRequest", CodeUnknownRequest root) ]

end stake

/-! ## `x/gov/test_common.go`: the address fixture -/

namespace sdk

/-- An account address (`sdk.Address`): a sequence of bytes. -/
abbrev Address := List (Fin 256)

/-- The three address conversions of the SDK `types` package that `testAddr`
calls. They are declared outside the sources at hand, so `testAddr` takes them
as a parameter; each returns a value or an error of type `ε`. -/
structure AddressCodec (ε : Type) where
  GetAccAddressHex : String → Except ε Address
  Bech32ifyAcc : Address → Except ε String
  GetAccAddressBech32 : String → Except ε Address

end sdk

namespace bytes

/-- Go `bytes.Compare`: lexicographic comparison of two byte slices, the result
being `0` if they are equal, `-1` if the first is smaller and `+1` if it is larger. -/
def Compare : List (Fin 256) → List (Fin 256) → Int
  | [], [] => 0
  | [], _ :: _ => -1
  | _ :: _, [] => 1
  | a :: as, b :: bs => if a < b then -1 else if b < a then 1 else Compare as bs

end bytes

namespace gov

open sdk

/-- The value a Go `panic` is raised with in `testAddr`: an error returned by
one of the conversions, or a fixed string. -/
inductive Panic (ε : Type) where
  | error (err : ε)
  | text (s : String)
  deriving DecidableEq, Repr

/-- The fixture `testAddr(addr, bech)` ("for incode address generation"):
returning normally is `.ok`, panicking is `.error` with the panic value. -/
def testAddr {ε : Type} (sdk : AddressCodec ε) (addr bech : String) : Except (Panic ε) Address :=
  match sdk.GetAccAddressHex addr with
  | .error err => .error (.error err)
  | .ok res =>
    match sdk.Bech32ifyAcc res with
    | .error err => .error (.error err)
    | .ok bechexpected =>
      if bech ≠ bechexpected then
        .error (.text "Bech encoding doesn't match reference")
      else
        match sdk.GetAccAddressBech32 bech with
        | .error err => .error (.error err)
        | .ok bechres =>
          if bytes.Compare bechres res ≠ 0 then
            .error (.text "Bech decode and hex decode don't match")
          else
            .ok res

end gov

/-! ## Reading the constructor back from a message -/

namespace types

/-- The calls of the twenty constructors whose message is a fixed text. -/
def fixedTextCalls : List ErrCall :=
  [ .ErrNilValidatorAddr, .ErrNoValidatorFound, .ErrValidatorAlreadyExists, .ErrValidatorRevoked,
    .ErrBadRemoveValidator, .ErrCommissionNegative, .ErrCommissionHuge, .ErrNilDelegatorAddr,
    .ErrBadDenom, .ErrBadDelegationAmount, .ErrNoDelegation, .ErrBadDelegatorAddr,
    .ErrNoDelegatorForAddress, .ErrInsufficientShares, .ErrDelegationValidatorEmpty,
    .ErrBadSharesAmount, .ErrBadSharesPercent, .ErrBothShareMsgsGiven,
    .ErrNeitherShareMsgsGiven, .ErrMissingSignature ]

/-- The name of the constructor that produced a message, found from the message
alone: by its opening words for the two formatted messages, by the whole text
for the others. -/
def constructorOfMsg (msg : String) : Option String :=
  if msg.data.take 27 = "bad description length for ".data then
    some "ErrDescriptionLength"
  else if msg.data.take 28 = "not enough shares only have ".data then
    some "ErrNotEnoughDelegationShares"
  else
    (fixedTextCalls.find? (fun c => (c.apply 0).msg = msg)).map ErrCall.name

end types

/-! ## The bonding core behind `stake.NewKeeper`

`stake.go` only forwards `Keeper`, `NewKeeper`, the record types and the message
constructors to the `keeper` and `types` packages, whose code is not among the
sources at hand. The definitions of this section are therefore written from the
specification (its sections 3, 4.1, 4.3 and 4.4), for one fixed validator.
-/

namespace keeper

open sdk

/-- Modelled from the spec: the validator status of `types.Validator`
("status ∈ {Unbonded, Unbonding, Bonded}"); the record type is only aliased in
`stake.go`. -/
inductive Status where
  | Unbonded
  | Unbonding
  | Bonded
  deriving DecidableEq, Repr

/-- Modelled from the spec: `types.Pool`, "total bonded/unbonded token supply"
with the "bonded shares outstanding, unbonded shares outstanding"; the record
type is only aliased in `stake.go`. -/
structure Pool where
  bondedTokens : Nat
  unbondedTokens : Nat
  bondedShares : Nat
  unbondedShares : Nat
  deriving DecidableEq, Repr

/-- Modelled from the spec: the token total of the pool side a validator of the
given status draws on ("bonded pool vs. unbonded pool use different rates");
the pool code is missing. -/
def Pool.tokens (p : Pool) : Status → Nat
  | .Bonded => p.bondedTokens
  | _ => p.unbondedTokens

/-- Modelled from the spec: the share total of the pool side a validator of the
given status draws on; the pool code is missing. -/
def Pool.shares (p : Pool) : Status → Nat
  | .Bonded => p.bondedShares
  | _ => p.unbondedShares

/-- Modelled from the spec: the issuing helper of the missing pool code,
"shares = tokens × totalShares / totalTokens", and "when totalShares=0, shares
are minted 1:1 with tokens"; integer arithmetic, rounded down ("rounding
direction is always toward the pool"). -/
def sharesOfTokens (totalTokens totalShares tokens : Nat) : Nat :=
  if totalShares = 0 then tokens else tokens * totalShares / totalTokens

/-- Modelled from the spec: the redeeming helper of the missing pool code,
"tokens = shares × totalTokens / totalShares", and "when a pool's total shares
is zero, exchange rate is defined as 1"; integer arithmetic, rounded down. -/
def tokensOfShares (totalTokens totalShares shares : Nat) : Nat :=
  if totalShares = 0 then shares else shares * totalTokens / totalShares

/-- Modelled from the spec: adding tokens to the side of the pool selected by
the status (`addBondedTokens` and its unbonded counterpart, missing), which
issues shares at the current rate; returns the pool and the shares issued. -/
def Pool.addTokens (p : Pool) (st : Status) (amount : Nat) : Pool × Nat :=
  let issued := sharesOfTokens (p.tokens st) (p.shares st) amount
  match st with
  | .Bonded =>
    ({ p with bondedTokens := p.bondedTokens + amount, bondedShares := p.bondedShares + issued },
      issued)
  | _ =>
    ({ p with unbondedTokens := p.unbondedTokens + amount,
              unbondedShares := p.unbondedShares + issued }, issued)

/-- Modelled from the spec: redeeming shares from the side of the pool selected
by the status (`removeBondedTokens` and its unbonded counterpart, missing), at
the current rate; returns the pool and the tokens taken out. -/
def Pool.removeShares (p : Pool) (st : Status) (shares : Nat) : Pool × Nat :=
  let out := tokensOfShares (p.tokens st) (p.shares st) shares
  match st with
  | .Bonded =>
    ({ p with bondedTokens := p.bondedTokens - out, bondedShares := p.bondedShares - shares },
      out)
  | _ =>
    ({ p with unbondedTokens := p.unbondedTokens - out,
              unbondedShares := p.unbondedShares - shares }, out)

/-- Modelled from the spec: the fields of `types.Validator` that delegation
reads and writes, "status", the revoked flag and "shares issued"; the record
type is only aliased in `stake.go`. -/
structure Validator where
  status : Status
  revoked : Bool
  shares : Nat
  deriving DecidableEq, Repr

/-- Modelled from the spec: `types.Delegation`, "{ delegator identity, validator
identity, shares held }", the validator being the fixed one; the record type is
only aliased in `stake.go`. -/
structure Delegation where
  delegator : Address
  shares : Nat
  deriving DecidableEq, Repr

/-- Modelled from the spec: `types.UnbondingDelegation`, "{ delegator,
validator, initial token balance, completion time }", the validator being the
fixed one; the record type is only aliased in `stake.go`. -/
structure UnbondingDelegation where
  delegator : Address
  balance : Nat
  completionTime : Nat
  deriving DecidableEq, Repr

/-- Modelled from the spec: what `NewKeeper` fixes for the missing keeper, the
codespace of its errors and the `unbondingPeriod` of the parameter store. -/
structure Keeper where
  codespace : CodespaceType
  unbondingPeriod : Nat
  deriving DecidableEq, Repr

/-- Modelled from the spec: the stored state the missing keeper works on, for
one validator: the pool, the validator record, the delegation ledger and the
queue of pending unbonding delegations. -/
structure State where
  pool : Pool
  validator : Validator
  delegations : List Delegation
  unbonding : List UnbondingDelegation
  deriving DecidableEq, Repr

/-- Modelled from the spec: lookup in the delegation ledger of the missing
keeper; there is a record only while shares are held. -/
def heldShares (ds : List Delegation) (d : Address) : Option Nat :=
  (ds.find? (fun r => r.delegator = d)).map Delegation.shares

/-- Modelled from the spec: writing a delegation of the missing keeper, "a
delegation with zero resulting shares is deleted". -/
def setDelegation (ds : List Delegation) (d : Address) (shares : Nat) : List Delegation :=
  let others := ds.filter (fun r => r.delegator ≠ d)
  if shares = 0 then others else { delegator := d, shares := shares } :: others

/-- The tokens that moved between the delegators and the core in one step. -/
structure Flow where
  delegated : Nat
  released : Nat
  deriving DecidableEq, Repr

/-- Modelled from the spec: `delegate(delegator, validator, tokens)` of the
missing keeper: "fails with `BadDelegationAmount` if tokens ≤ 0; fails with
`NoValidatorFound` if validator absent or revoked; converts tokens to shares
via Pool, increases validator's issued shares and the Delegation record,
increases Pool bonded/unbonded tokens depending on validator status". -/
def delegate (k : Keeper) (s : State) (d : Address) (tokens : Int) : Except Error (State × Flow) :=
  if tokens ≤ 0 then
    .error (types.ErrBadDelegationAmount k.codespace)
  else if s.validator.revoked then
    .error (types.ErrNoValidatorFound k.codespace)
  else
    let amount := tokens.toNat
    let (pool, issued) := s.pool.addTokens s.validator.status amount
    let held := (heldShares s.delegations d).getD 0
    .ok ({ s with
            pool := pool
            validator := { s.validator with shares := s.validator.shares + issued }
            delegations := setDelegation s.delegations d (held + issued) },
         { delegated := amount, released := 0 })

/-- Modelled from the spec: the share count an undelegation asks for, given
either as an absolute amount or as a percentage of the shares held (rounded
down); part of the missing keeper. -/
def requestedShares (held : Nat) (shares : Option Int) (percent : Option Rat) : Nat :=
  match shares, percent with
  | some n, _ => n.toNat
  | none, some p => held * p.num.toNat / p.den
  | none, none => 0

/-- Modelled from the spec: `undelegate(delegator, validator, shares|percent)`
of the missing keeper: "exactly one of an absolute share amount or a percentage
must be given — fails with `BothShareMsgsGiven` or `NeitherShareMsgsGiven`
otherwise; percentage must be in (0,1]; fails with `InsufficientShares` if
requested shares exceed held shares. Converts shares back to tokens at the
current rate, decreases validator issued shares [...] and creates an
UnbondingDelegation entry for the redeemed tokens rather than releasing them
immediately"; "undelegating with `shares=0` or `percent=0` fails with
`BadDelegationAmount`/`BadSharesPercent`"; the entry matures at
"now + unbondingPeriod". -/
def undelegate (k : Keeper) (s : State) (d : Address) (shares : Option Int)
    (percent : Option Rat) (now : Nat) : Except Error (State × Flow) :=
  match shares, percent with
  | some _, some _ => .error (types.ErrBothShareMsgsGiven k.codespace)
  | none, none => .error (types.ErrNeitherShareMsgsGiven k.codespace)
  | _, _ =>
    if (shares.map (fun n => decide (n ≤ 0))).getD false then
      .error (types.ErrBadDelegationAmount k.codespace)
    else if (percent.map (fun p => decide (p ≤ 0 ∨ 1 < p))).getD false then
      .error (types.ErrBadSharesPercent k.codespace)
    else
      match heldShares s.delegations d with
      | none => .error (types.ErrNoDelegation k.codespace)
      | some held =>
        let req := requestedShares held shares percent
        if held < req then
          .error (types.ErrInsufficientShares k.codespace)
        else
          let (pool, out) := s.pool.removeShares s.validator.status req
          .ok ({ s with
                  pool := pool
                  validator := { s.validator with shares := s.validator.shares - req }
                  delegations := setDelegation s.delegations d (held - req)
                  unbonding := s.unbonding ++
                    [{ delegator := d, balance := out,
                       completionTime := now + k.unbondingPeriod }] },
               { delegated := 0, released := 0 })

/-- Modelled from the spec: the end-of-block queue processor of the missing
keeper, "releasing/pruning every entry whose completion time ≤ current block
time. Releasing an UnbondingDelegation credits the delegator's external token
balance and removes the entry". -/
def endBlock (s : State) (now : Nat) : State × Flow :=
  let due := s.unbonding.filter (fun u => u.completionTime ≤ now)
  let rest := s.unbonding.filter (fun u => ¬ u.completionTime ≤ now)
  ({ s with unbonding := rest }, { delegated := 0, released := (due.map (·.balance)).sum })

/-- An operation on the fixed validator: a delegation, an undelegation, or the
end of a block at a given time. -/
inductive Op where
  | delegate (d : Address) (tokens : Int)
  | undelegate (d : Address) (shares : Option Int) (percent : Option Rat) (now : Nat)
  | endBlock (now : Nat)

/-- Modelled from the spec: one operation of the missing keeper; it succeeds
with the new state and the tokens moved, or is rejected with a typed error. -/
def step (k : Keeper) (s : State) : Op → Except Error (State × Flow)
  | .delegate d tokens => delegate k s d tokens
  | .undelegate d shares percent now => undelegate k s d shares percent now
  | .endBlock now => .ok (endBlock s now)

/-- Modelled from the spec: a sequence of operations of the missing keeper,
with the running totals of the tokens delegated and released; "a rejected
transaction consumes no pool/ledger change". -/
def run (k : Keeper) : State → Flow → List Op → State × Flow
  | s, f, [] => (s, f)
  | s, f, op :: ops =>
    match step k s op with
    | .ok (s', g) =>
      run k s' { delegated := f.delegated + g.delegated, released := f.released + g.released } ops
    | .error _ => run k s f ops

/-- Modelled from the spec: "tokens implied by outstanding shares", the shares
the validator has issued at the exchange rate of its side of the pool. -/
def impliedTokens (s : State) : Nat :=
  tokensOfShares (s.pool.tokens s.validator.status) (s.pool.shares s.validator.status)
    s.validator.shares

/-- Modelled from the spec: "tokens held in pending UnbondingDelegation entries". -/
def pendingTokens (s : State) : Nat :=
  (s.unbonding.map (·.balance)).sum

/-- Modelled from the spec: the state in which the validator has just been
created, with no shares issued, no delegation and no pending entry, in a pool
that is whatever the rest of the system has made it: any token and share totals
on either side, hence any exchange rate. -/
def init (status : Status) (pool : Pool) : State :=
  { pool := pool
    validator := { status := status, revoked := false, shares := 0 }
    delegations := []
    unbonding := [] }

end keeper

namespace keeper

/-- The shares recorded in a delegation ledger, summed. -/
def sumShares (ds : List Delegation) : Nat :=
  (ds.map Delegation.shares).sum

/-- The invariant of the bonding core for one validator whose side of the pool
is at exchange rate 1, with the running totals: the validator's shares are part
of that side's shares and are exactly the shares of its delegations, one record
per delegator, and the shares issued, the pending tokens and the tokens
released add up to the tokens delegated. -/
structure Inv (s : State) (f : Flow) : Prop where
  rate : s.pool.tokens s.validator.status = s.pool.shares s.validator.status
  part : s.validator.shares ≤ s.pool.shares s.validator.status
  ledger : sumShares s.delegations = s.validator.shares
  keyed : (s.delegations.map Delegation.delegator).Nodup
  account : s.validator.shares + pendingTokens s + f.released = f.delegated

/-- The invariant of the bonding core for one validator at any exchange rate,
with the running totals: the validator's side of the pool holds tokens only
against shares, the validator's shares are part of that side's shares and are
exactly the shares of its delegations, one record per delegator, the pending
and released tokens are covered by the tokens delegated, and the validator's
shares are worth, at the rate of its side (tokens over shares, written without
division), no more than the delegated tokens still in the core. -/
structure Sound (s : State) (f : Flow) : Prop where
  backed : s.pool.shares s.validator.status = 0 → s.pool.tokens s.validator.status = 0
  part : s.validator.shares ≤ s.pool.shares s.validator.status
  ledger : sumShares s.delegations = s.validator.shares
  keyed : (s.delegations.map Delegation.delegator).Nodup
  settled : pendingTokens s + f.released ≤ f.delegated
  value : s.validator.shares * s.pool.tokens s.validator.status
    ≤ (f.delegated - (pendingTokens s + f.released)) * s.pool.shares s.validator.status

end keeper

example : fmt.Sprintf "a%vb%v" [.str "x", .int (-12)] = "axb-12" := by decide
example : (types.ErrDescriptionLength 4 "moniker" 71 70).msg
    = "bad description length for moniker, got length 71, max is 70" := by decide
example : fmt.Sprintf "100%" [] = "100%!(NOVERB)" := by decide
example : fmt.Sprintf "%v" [] = "%!v(MISSING)" := by decide
example : fmt.Sprintf "x" [.str "a", .int 3] = "x%!(EXTRA string=a, int=3)" := by decide
example : fmt.Sprintf "%d" [.str "a"] = "%!d(string=a)" := by decide
example : fmt.Sprintf "%s has %d%%" [.str "a", .int 50] = "a has 50%" := by decide
example : fmt.Sprintf "%s" [.int 5] = "%!s(int=5)" := by decide
example : fmt.decimal 0 = "0" ∧ fmt.decimal 71 = "71" ∧ fmt.decimal (-5) = "-5" := by decide
example : bytes.Compare [1, 2] [1, 3] = -1 ∧ bytes.Compare [1, 2] [1, 2] = 0
    ∧ bytes.Compare [2] [1, 9] = 1 ∧ bytes.Compare [] [0] = -1 := by decide
example : types.constructorOfMsg "shares must be > 0" = some "ErrBadSharesAmount" := by decide
example : types.constructorOfMsg "anything else" = none := by decide

section
open keeper

example :
    run ⟨4, 10⟩ (init .Bonded ⟨7, 3, 7, 3⟩) ⟨0, 0⟩
      [.delegate [1] 5, .delegate [2] 3, .undelegate [1] (some 2) none 100, .endBlock 105,
        .undelegate [2] (some 4) none 101, .endBlock 110]
    = ({ pool := ⟨13, 3, 13, 3⟩, validator := ⟨.Bonded, false, 6⟩,
         delegations := [⟨[1], 3⟩, ⟨[2], 3⟩], unbonding := [] }, ⟨8, 2⟩) := by decide

example :
    run ⟨4, 10⟩ (init .Bonded ⟨10, 0, 5, 0⟩) ⟨0, 0⟩
      [.delegate [1] 3, .undelegate [1] none (some 1) 0, .endBlock 10]
    = ({ pool := ⟨11, 0, 5, 0⟩, validator := ⟨.Bonded, false, 0⟩,
         delegations := [], unbonding := [] }, ⟨3, 2⟩) := by decide

example : (step ⟨4, 10⟩ (init .Bonded ⟨7, 3, 7, 3⟩) (.delegate [1] 0)).toOption = none := by decide
example :
    step ⟨4, 10⟩ (init .Unbonded ⟨7, 3, 7, 3⟩) (.undelegate [1] (some 1) (some 1) 0)
      = .error (types.ErrBothShareMsgsGiven 4) := rfl

end

/-! ## Formatting lemmas -/

namespace fmt

/-- A character other than the percent sign is copied to the output. -/
theorem sprintfLoop_plain (c : Char) (cs : List Char) (args : List Operand) (h : c ≠ '%') :
    sprintfLoop (c :: cs) args = c :: sprintfLoop cs args := by
  rw [sprintfLoop]
  all_goals simp_all

/-- A run of characters without a percent sign is copied to the output. -/
theorem sprintfLoop_text (pre cs : List Char) (args : List Operand) (h : '%' ∉ pre) :
    sprintfLoop (pre ++ cs) args = pre ++ sprintfLoop cs args := by
  induction pre with
  | nil => rfl
  | cons c pre ih =>
    have hc : c ≠ '%' := fun e => h (by simp [e])
    have hp : '%' ∉ pre := fun e => h (by simp [e])
    rw [List.cons_append, sprintfLoop_plain c _ args hc, ih hp, List.cons_append]

/-- The verb `%v` prints the next operand. -/
theorem sprintfLoop_verb (a : Operand) (cs : List Char) (args : List Operand) :
    sprintfLoop ('%' :: 'v' :: cs) (a :: args) = a.render ++ sprintfLoop cs args := by
  rw [sprintfLoop]

end fmt

namespace types

open sdk

/-- The characters of the message built by `ErrDescriptionLength`. -/
theorem ErrDescriptionLength_msg_data (cs : CodespaceType) (d : String) (got max : Int) :
    (ErrDescriptionLength cs d got max).msg.data
      = "bad description length for ".data ++ (d.data ++ (", got length ".data
          ++ ((fmt.decimal got).data ++ (", max is ".data ++ (fmt.decimal max).data)))) := by
  have hf : "bad description length for %v, got length %v, max is %v".data
      = "bad description length for ".data ++ ('%' :: 'v' :: (", got length ".data
          ++ ('%' :: 'v' :: (", max is ".data ++ ('%' :: 'v' :: []))))) := by decide
  have h1 : '%' ∉ "bad description length for ".data := by decide
  have h2 : '%' ∉ ", got length ".data := by decide
  have h3 : '%' ∉ ", max is ".data := by decide
  show fmt.sprintfLoop _ _ = _
  rw [hf, fmt.sprintfLoop_text _ _ _ h1, fmt.sprintfLoop_verb, fmt.sprintfLoop_text _ _ _ h2,
    fmt.sprintfLoop_verb, fmt.sprintfLoop_text _ _ _ h3, fmt.sprintfLoop_verb]
  simp [fmt.sprintfLoop, fmt.Operand.render]

/-- The characters of the message built by `ErrNotEnoughDelegationShares`. -/
theorem ErrNotEnoughDelegationShares_msg_data (cs : CodespaceType) (shares : String) :
    (ErrNotEnoughDelegationShares cs shares).msg.data
      = "not enough shares only have ".data ++ shares.data := by
  have hf : "not enough shares only have %v".data
      = "not enough shares only have ".data ++ ('%' :: 'v' :: []) := by decide
  have h1 : '%' ∉ "not enough shares only have ".data := by decide
  show fmt.sprintfLoop _ _ = _
  rw [hf, fmt.sprintfLoop_text _ _ _ h1, fmt.sprintfLoop_verb]
  simp [fmt.sprintfLoop, fmt.Operand.render]

end types

/-! ## The error taxonomy -/

/-- C1: for every codespace, each validator-failure constructor of the
`InvalidValidator` category (`ErrNoValidatorFound`, `ErrValidatorAlreadyExists`,
`ErrValidatorRevoked`, `ErrDescriptionLength` for every descriptor, got and max,
`ErrCommissionNegative`, `ErrCommissionHuge`, `ErrMissingSignature`) returns an
error whose code is `CodeInvalidValidator`, which is 101. -/
theorem C1_invalid_validator_codes (cs : sdk.CodespaceType) (d : String) (got max : Int) :
    types.CodeInvalidValidator = 101
    ∧ (types.ErrNoValidatorFound cs).code = types.CodeInvalidValidator
    ∧ (types.ErrValidatorAlreadyExists cs).code = types.CodeInvalidValidator
    ∧ (types.ErrValidatorRevoked cs).code = types.CodeInvalidValidator
    ∧ (types.ErrDescriptionLength cs d got max).code = types.CodeInvalidValidator
    ∧ (types.ErrCommissionNegative cs).code = types.CodeInvalidValidator
    ∧ (types.ErrCommissionHuge cs).code = types.CodeInvalidValidator
    ∧ (types.ErrMissingSignature cs).code = types.CodeInvalidValidator :=
  ⟨rfl, rfl, rfl, rfl, rfl, rfl, rfl, rfl⟩

/-- C2, as stated, fails: at the default codespace the code returned by
`ErrBadDelegationAmount` is not `CodeInvalidInput` (it is 102, not 103), and
neither is the code returned by `ErrBadSharesAmount`. -/
theorem C2_amount_codes_not_invalid_input :
    (types.ErrBadDelegationAmount types.DefaultCodespace).code ≠ types.CodeInvalidInput
    ∧ (types.ErrBadSharesAmount types.DefaultCodespace).code ≠ types.CodeInvalidInput
    ∧ ¬ (∀ cs : sdk.CodespaceType,
          (types.ErrBadDelegationAmount cs).code = types.CodeInvalidInput
          ∧ (types.ErrBadSharesAmount cs).code = types.CodeInvalidInput) := by
  refine ⟨by decide, by decide, fun h => ?_⟩
  exact absurd (h types.DefaultCodespace).1 (by decide)

/-- C2, amended: for every codespace, `ErrBadDelegationAmount` ("amount must be
> 0") and `ErrBadSharesAmount` ("shares must be > 0") return an error whose code
is `CodeInvalidDelegation`, which is 102. -/
theorem C2_amount_codes_invalid_delegation (cs : sdk.CodespaceType) :
    types.CodeInvalidDelegation = 102
    ∧ (types.ErrBadDelegationAmount cs).code = types.CodeInvalidDelegation
    ∧ (types.ErrBadDelegationAmount cs).msg = "amount must be > 0"
    ∧ (types.ErrBadSharesAmount cs).code = types.CodeInvalidDelegation
    ∧ (types.ErrBadSharesAmount cs).msg = "shares must be > 0" :=
  ⟨rfl, rfl, rfl, rfl, rfl⟩

/-- C3: for every codespace, the constructors for a nil address
(`ErrNilValidatorAddr`, `ErrNilDelegatorAddr`) and for conflicting share and
percent arguments (`ErrBothShareMsgsGiven`, `ErrNeitherShareMsgsGiven`) return
an error whose code is `CodeInvalidInput`, which is 103. -/
theorem C3_invalid_input_codes (cs : sdk.CodespaceType) :
    types.CodeInvalidInput = 103
    ∧ (types.ErrNilValidatorAddr cs).code = types.CodeInvalidInput
    ∧ (types.ErrNilDelegatorAddr cs).code = types.CodeInvalidInput
    ∧ (types.ErrBothShareMsgsGiven cs).code = types.CodeInvalidInput
    ∧ (types.ErrNeitherShareMsgsGiven cs).code = types.CodeInvalidInput :=
  ⟨rfl, rfl, rfl, rfl, rfl⟩

/-- C4: for every codespace, the delegation-failure constructors of the
`InvalidDelegation` category (`ErrBadDenom`, `ErrInsufficientShares`,
`ErrNotEnoughDelegationShares` for every shares string, `ErrNoDelegation`)
return an error whose code is `CodeInvalidDelegation`, which is 102. -/
theorem C4_invalid_delegation_codes (cs : sdk.CodespaceType) (shares : String) :
    types.CodeInvalidDelegation = 102
    ∧ (types.ErrBadDenom cs).code = types.CodeInvalidDelegation
    ∧ (types.ErrInsufficientShares cs).code = types.CodeInvalidDelegation
    ∧ (types.ErrNotEnoughDelegationShares cs shares).code = types.CodeInvalidDelegation
    ∧ (types.ErrNoDelegation cs).code = types.CodeInvalidDelegation :=
  ⟨rfl, rfl, rfl, rfl, rfl⟩

/-- C8: for every codespace, descriptor and integers got and max,
`ErrDescriptionLength` returns an error with code `CodeInvalidValidator` whose
message is exactly "bad description length for ", the descriptor,
", got length ", got in decimal, ", max is ", max in decimal: the offending
field, its actual length and the configured limit, in that order. -/
theorem C8_description_length_message (cs : sdk.CodespaceType) (d : String) (got max : Int) :
    (types.ErrDescriptionLength cs d got max).code = types.CodeInvalidValidator
    ∧ (types.ErrDescriptionLength cs d got max).msg
        = "bad description length for " ++ d ++ ", got length " ++ fmt.decimal got
            ++ ", max is " ++ fmt.decimal max := by
  refine ⟨rfl, ?_⟩
  apply String.ext
  rw [types.ErrDescriptionLength_msg_data]
  simp [String.data_append]

namespace types

open sdk

/-- The message of a call does not depend on the codespace. -/
theorem ErrCall.msg_codespace (c : ErrCall) (cs cs' : CodespaceType) :
    (c.apply cs).msg = (c.apply cs').msg := by
  cases c <;> rfl

/-- The message of a call is never the empty string. -/
theorem ErrCall.msg_ne_empty (c : ErrCall) (cs : CodespaceType) : (c.apply cs).msg ≠ "" := by
  intro h
  have hd : (c.apply 0).msg.data = [] := by rw [ErrCall.msg_codespace c 0 cs, h]
  cases c
  case ErrDescriptionLength d got max =>
    have := ErrDescriptionLength_msg_data 0 d got max
    simp only [ErrCall.apply] at hd
    rw [hd] at this
    exact absurd this (by simp)
  case ErrNotEnoughDelegationShares s =>
    have := ErrNotEnoughDelegationShares_msg_data 0 s
    simp only [ErrCall.apply] at hd
    rw [hd] at this
    exact absurd this (by simp)
  all_goals exact absurd hd (by decide)

/-- The constructor is read back from the message of any of its calls. -/
theorem constructorOfMsg_apply (c : ErrCall) (cs : CodespaceType) :
    constructorOfMsg (c.apply cs).msg = some c.name := by
  rw [ErrCall.msg_codespace c cs 0]
  cases c
  case ErrDescriptionLength d got max =>
    have h := ErrDescriptionLength_msg_data 0 d got max
    simp only [ErrCall.apply] at h ⊢
    unfold constructorOfMsg
    rw [h, List.take_left' (by decide)]
    simp [ErrCall.name]
  case ErrNotEnoughDelegationShares s =>
    have h := ErrNotEnoughDelegationShares_msg_data 0 s
    simp only [ErrCall.apply] at h ⊢
    unfold constructorOfMsg
    rw [h, List.take_left' (show ("not enough shares only have ".data).length = 28 by decide)]
    have hne : List.take 27 ("not enough shares only have ".data ++ s.data)
        ≠ "bad description length for ".data := by
      intro e
      have e2 := congrArg (List.take 1) e
      rw [List.take_take, List.take_append_of_le_length (by decide)] at e2
      revert e2
      decide
    rw [if_neg hne]
    simp [ErrCall.name]
  all_goals decide

/-- The code of any call is one of 101, 102 and 103. -/
theorem ErrCall.code_cases (c : ErrCall) (cs : CodespaceType) :
    (c.apply cs).code = 101 ∨ (c.apply cs).code = 102 ∨ (c.apply cs).code = 103 := by
  cases c <;>
    first
    | exact Or.inl rfl
    | exact Or.inr (Or.inl rfl)
    | exact Or.inr (Or.inr rfl)

end types

/-- C5: for every one of the 22 error constructors of `types/errors.go`, every
codespace and every value of the extra arguments, the returned error carries
the codespace it was given, a code, and a non-empty message; the code and the
message do not depend on the codespace, so two calls that differ only in
codespace yield the same code and the same message. -/
theorem C5_error_carries_codespace_code_message (c : types.ErrCall) (cs cs' : sdk.CodespaceType) :
    types.errorConstructors.length = 22
    ∧ c.name ∈ types.errorConstructors.map Prod.fst
    ∧ (c.apply cs).codespace = cs
    ∧ (∃ code : sdk.CodeType, (c.apply cs).code = code)
    ∧ (c.apply cs).msg ≠ ""
    ∧ (c.apply cs).code = (c.apply cs').code
    ∧ (c.apply cs).msg = (c.apply cs').msg := by
  refine ⟨rfl, ?_, ?_, ⟨_, rfl⟩, types.ErrCall.msg_ne_empty c cs, ?_,
    types.ErrCall.msg_codespace c cs cs'⟩
  · cases c <;> simp only [types.ErrCall.name] <;> decide
  · cases c <;> rfl
  · cases c <;> rfl

/-- C6: the public stake package forwards the error taxonomy of the types
package unchanged: each of the 8 constants re-exported in `stake.go` equals the
types constant of the same name, each of the 22 `Err` variables of `stake.go` is
the types constructor of the same name, and every error constructor defined in
`types/errors.go` is re-exported by `stake.go` under its name (none is missing). -/
theorem C6_stake_forwards_types (root : sdk.RootCodes) :
    (stake.DefaultCodespace = types.DefaultCodespace
      ∧ stake.CodeInvalidValidator = types.CodeInvalidValidator
      ∧ stake.CodeInvalidDelegation = types.CodeInvalidDelegation
      ∧ stake.CodeInvalidInput = types.CodeInvalidInput
      ∧ stake.CodeValidatorJailed = types.CodeValidatorJailed
      ∧ stake.CodeUnauthorized root = types.CodeUnauthorized root
      ∧ stake.CodeInternal root = types.CodeInternal root
      ∧ stake.CodeUnknownRequest root = types.CodeUnknownRequest root)
    ∧ (stake.ErrNilValidatorAddr = types.ErrNilValidatorAddr
      ∧ stake.ErrNoValidatorFound = types.ErrNoValidatorFound
      ∧ stake.ErrValidatorAlreadyExists = types.ErrValidatorAlreadyExists
      ∧ stake.ErrValidatorRevoked = types.ErrValidatorRevoked
      ∧ stake.ErrBadRemoveValidator = types.ErrBadRemoveValidator
      ∧ stake.ErrDescriptionLength = types.ErrDescriptionLength
      ∧ stake.ErrCommissionNegative = types.ErrCommissionNegative
      ∧ stake.ErrCommissionHuge = types.ErrCommissionHuge
      ∧ stake.ErrNilDelegatorAddr = types.ErrNilDelegatorAddr
      ∧ stake.ErrBadDenom = types.ErrBadDenom
      ∧ stake.ErrBadDelegationAmount = types.ErrBadDelegationAmount
      ∧ stake.ErrNoDelegation = types.ErrNoDelegation
      ∧ stake.ErrBadDelegatorAddr = types.ErrBadDelegatorAddr
      ∧ stake.ErrNoDelegatorForAddress = types.ErrNoDelegatorForAddress
      ∧ stake.ErrInsufficientShares = types.ErrInsufficientShares
      ∧ stake.ErrDelegationValidatorEmpty = types.ErrDelegationValidatorEmpty
      ∧ stake.ErrNotEnoughDelegationShares = types.ErrNotEnoughDelegationShares
      ∧ stake.ErrBadSharesAmount = types.ErrBadSharesAmount
      ∧ stake.ErrBadSharesPercent = types.ErrBadSharesPercent
      ∧ stake.ErrBothShareMsgsGiven = types.ErrBothShareMsgsGiven
      ∧ stake.ErrNeitherShareMsgsGiven = types.ErrNeitherShareMsgsGiven
      ∧ stake.ErrMissingSignature = types.ErrMissingSignature)
    ∧ stake.constants root = types.constants root
    ∧ (stake.constants root).length = 8
    ∧ stake.errorVars = types.errorConstructors
    ∧ stake.errorVars.length = 22
    ∧ (stake.errorVars.map Prod.fst).Nodup
    ∧ (∀ e ∈ types.errorConstructors, e ∈ stake.errorVars) := by
  refine ⟨⟨rfl, rfl, rfl, rfl, rfl, rfl, rfl, rfl⟩,
    ⟨rfl, rfl, rfl, rfl, rfl, rfl, rfl, rfl, rfl, rfl, rfl, rfl, rfl, rfl, rfl, rfl, rfl, rfl,
      rfl, rfl, rfl, rfl⟩, rfl, rfl, rfl, rfl, by decide, fun e he => he⟩

/-- C10: the message identifies the constructor. For any two calls of different
error constructors of `types/errors.go`, whatever the arguments and codespaces,
the two messages are different strings, and the constructor name is read back
from the message alone. Many constructors share a code: only 101, 102 and 103
are ever produced, never `CodeValidatorJailed`, and never one of the codes the
SDK declares (`CodeUnauthorized`, `CodeInternal`, `CodeUnknownRequest`), these
being different from 101, 102 and 103. -/
theorem C10_message_identifies_constructor (root : sdk.RootCodes)
    (hroot : ∀ r ∈ [types.CodeUnauthorized root, types.CodeInternal root,
      types.CodeUnknownRequest root], r ≠ 101 ∧ r ≠ 102 ∧ r ≠ 103)
    (a b : types.ErrCall) (cs cs' : sdk.CodespaceType) (hab : a.name ≠ b.name) :
    (a.apply cs).msg ≠ (b.apply cs').msg
    ∧ types.constructorOfMsg (a.apply cs).msg = some a.name
    ∧ ((a.apply cs).code = 101 ∨ (a.apply cs).code = 102 ∨ (a.apply cs).code = 103)
    ∧ (a.apply cs).code ≠ types.CodeValidatorJailed
    ∧ (a.apply cs).code ≠ types.CodeUnauthorized root
    ∧ (a.apply cs).code ≠ types.CodeInternal root
    ∧ (a.apply cs).code ≠ types.CodeUnknownRequest root
    ∧ (types.ErrCall.ErrNoValidatorFound.apply cs).code
        = (types.ErrCall.ErrMissingSignature.apply cs).code := by
  have hcode := types.ErrCall.code_cases a cs
  have h1 := hroot (types.CodeUnauthorized root) (by simp)
  have h2 := hroot (types.CodeInternal root) (by simp)
  have h3 := hroot (types.CodeUnknownRequest root) (by simp)
  refine ⟨?_, types.constructorOfMsg_apply a cs, hcode, ?_, ?_, ?_, ?_, rfl⟩
  · intro e
    have ha := types.constructorOfMsg_apply a cs
    have hb := types.constructorOfMsg_apply b cs'
    rw [e, hb] at ha
    exact hab (Option.some.inj ha).symm
  · intro e
    rw [e] at hcode
    revert hcode
    decide
  · intro e
    rw [e] at hcode
    rcases hcode with h | h | h
    · exact h1.1 h
    · exact h1.2.1 h
    · exact h1.2.2 h
  · intro e
    rw [e] at hcode
    rcases hcode with h | h | h
    · exact h2.1 h
    · exact h2.2.1 h
    · exact h2.2.2 h
  · intro e
    rw [e] at hcode
    rcases hcode with h | h | h
    · exact h3.1 h
    · exact h3.2.1 h
    · exact h3.2.2 h

/-- C10 at a concrete input: `ErrBadDelegationAmount` and `ErrBadSharesAmount`
are different constructors that share the code 102 and differ in their message;
the SDK codes are taken to be 4, 1 and 6 for `CodeUnauthorized`, `CodeInternal`
and `CodeUnknownRequest`. -/
theorem C10_message_identifies_constructor_witness :
    (∀ r ∈ [types.CodeUnauthorized ⟨4, 1, 6⟩, types.CodeInternal ⟨4, 1, 6⟩,
        types.CodeUnknownRequest ⟨4, 1, 6⟩], r ≠ 101 ∧ r ≠ 102 ∧ r ≠ 103)
    ∧ types.ErrCall.ErrBadDelegationAmount.name ≠ types.ErrCall.ErrBadSharesAmount.name
    ∧ (types.ErrCall.ErrBadDelegationAmount.apply 4).msg
        ≠ (types.ErrCall.ErrBadSharesAmount.apply 7).msg
    ∧ types.constructorOfMsg (types.ErrCall.ErrBadDelegationAmount.apply 4).msg
        = some "ErrBadDelegationAmount"
    ∧ (types.ErrCall.ErrBadDelegationAmount.apply 4).code = 102
    ∧ (types.ErrCall.ErrBadSharesAmount.apply 7).code = 102
    ∧ (types.ErrCall.ErrBadDelegationAmount.apply 4).code ≠ types.CodeUnauthorized ⟨4, 1, 6⟩ :=
  have h := C10_message_identifies_constructor ⟨4, 1, 6⟩ (by decide)
    types.ErrCall.ErrBadDelegationAmount types.ErrCall.ErrBadSharesAmount 4 7 (by decide)
  ⟨by decide, by decide, h.1, h.2.1, rfl, rfl, h.2.2.2.2.1⟩

/-! ## The address fixture -/

namespace bytes

/-- The comparison `Compare` gives zero exactly on equal byte sequences. -/
theorem Compare_eq_zero_iff (a b : List (Fin 256)) : Compare a b = 0 ↔ a = b := by
  induction a generalizing b with
  | nil => cases b <;> simp [Compare]
  | cons x xs ih =>
    cases b with
    | nil => simp [Compare]
    | cons y ys =>
      rw [Compare]
      by_cases h1 : x < y
      · have hne : x ≠ y := ne_of_lt h1
        simp [h1, hne]
      · by_cases h2 : y < x
        · have hne : x ≠ y := (ne_of_lt h2).symm
          simp [h1, h2, hne]
        · have he : x = y := le_antisymm (not_lt.mp h2) (not_lt.mp h1)
          simp [h1, h2, he, ih]

end bytes

/-- C9: for every pair of strings, `testAddr(addr, bech)` returns normally if
and only if `addr` hex-decodes to an account address `res`, the Bech32 account
encoding of `res` equals `bech`, and Bech32-decoding `bech` succeeds with bytes
equal to `res`; when it returns, the result is `res`, so that on every accepted
pair Bech32 decoding undoes Bech32 encoding and agrees with hex decoding; in
every other case it panics instead of returning an address. -/
theorem C9_testAddr_returns_iff {ε : Type} (codec : sdk.AddressCodec ε) (addr bech : String) :
    (∀ r : sdk.Address, gov.testAddr codec addr bech = .ok r ↔
        (codec.GetAccAddressHex addr = .ok r
          ∧ codec.Bech32ifyAcc r = .ok bech
          ∧ ∃ bechres, codec.GetAccAddressBech32 bech = .ok bechres ∧ bechres = r))
    ∧ (∀ r : sdk.Address, gov.testAddr codec addr bech = .ok r →
        (codec.Bech32ifyAcc r >>= codec.GetAccAddressBech32) = .ok r
          ∧ codec.GetAccAddressBech32 bech = codec.GetAccAddressHex addr)
    ∧ ((∃ r, gov.testAddr codec addr bech = .ok r)
        ∨ ∃ p, gov.testAddr codec addr bech = .error p) := by
  have key : ∀ r : sdk.Address, gov.testAddr codec addr bech = .ok r ↔
      (codec.GetAccAddressHex addr = .ok r
        ∧ codec.Bech32ifyAcc r = .ok bech
        ∧ ∃ bechres, codec.GetAccAddressBech32 bech = .ok bechres ∧ bechres = r) := by
    intro r
    cases hhex : codec.GetAccAddressHex addr with
    | error e => simp [gov.testAddr, hhex]
    | ok res =>
      cases henc : codec.Bech32ifyAcc res with
      | error e =>
        simp only [gov.testAddr, hhex, henc, false_iff, reduceCtorEq]
        rintro ⟨h1, h2, -⟩
        cases h1
        rw [henc] at h2
        cases h2
      | ok bechexpected =>
        by_cases hb : bech = bechexpected
        · subst hb
          cases hdec : codec.GetAccAddressBech32 bech with
          | error e =>
            simp [gov.testAddr, hhex, henc, hdec]
          | ok bechres =>
            by_cases hc : bytes.Compare bechres res = 0
            · have hcr := (bytes.Compare_eq_zero_iff bechres res).mp hc
              subst hcr
              simp only [gov.testAddr, hhex, henc, hdec, ne_eq, not_true_eq_false, if_false, hc,
                Except.ok.injEq]
              constructor
              · rintro rfl
                exact ⟨rfl, henc, _, rfl, rfl⟩
              · rintro ⟨h1, -⟩
                exact h1
            · have hcr : bechres ≠ res := fun e => hc ((bytes.Compare_eq_zero_iff _ _).mpr e)
              simp only [gov.testAddr, hhex, henc, hdec, ne_eq, not_true_eq_false, if_false, hc,
                not_false_eq_true, if_true, false_iff, reduceCtorEq]
              rintro ⟨h1, -, br, h3, h4⟩
              cases h1
              cases h3
              exact hcr h4
        · simp only [gov.testAddr, hhex, henc, ne_eq, hb, not_false_eq_true, if_true, false_iff,
            reduceCtorEq]
          rintro ⟨h1, h2, -⟩
          cases h1
          rw [henc] at h2
          cases h2
          exact hb rfl
  refine ⟨key, ?_, ?_⟩
  · intro r hr
    obtain ⟨h1, h2, br, h3, h4⟩ := (key r).mp hr
    subst h4
    refine ⟨?_, ?_⟩
    · rw [h2]
      exact h3
    · rw [h1, h3]
  · cases h : gov.testAddr codec addr bech with
    | ok r => exact Or.inl ⟨r, rfl⟩
    | error p => exact Or.inr ⟨p, rfl⟩

/-! ## Conservation in the bonding core -/

namespace keeper

open sdk

/-- At exchange rate 1 tokens are issued shares one for one. -/
theorem sharesOfTokens_unit (t n : Nat) : sharesOfTokens t t n = n := by
  unfold sharesOfTokens
  split
  · rfl
  · next h => exact Nat.mul_div_cancel n (Nat.pos_of_ne_zero h)

/-- At exchange rate 1 shares are redeemed for tokens one for one. -/
theorem tokensOfShares_unit (t n : Nat) : tokensOfShares t t n = n := by
  unfold tokensOfShares
  split
  · rfl
  · next h => exact Nat.mul_div_cancel n (Nat.pos_of_ne_zero h)

/-- Removing the record of a delegator that has none leaves the ledger as it is. -/
theorem filter_ne_of_not_mem (ds : List Delegation) (d : Address)
    (h : d ∉ ds.map Delegation.delegator) :
    ds.filter (fun r => r.delegator ≠ d) = ds := by
  rw [List.filter_eq_self]
  intro r hr
  have : r.delegator ≠ d := fun e => h (e ▸ List.mem_map_of_mem _ hr)
  simpa using this

/-- The delegator has no record once its record is removed. -/
theorem not_mem_filter_ne (ds : List Delegation) (d : Address) :
    d ∉ (ds.filter (fun r => r.delegator ≠ d)).map Delegation.delegator := by
  intro h
  obtain ⟨r, hr, hd⟩ := List.mem_map.mp h
  have := (List.mem_filter.mp hr).2
  simp [hd] at this

/-- Removing records keeps the ledger keyed by delegator. -/
theorem nodup_filter (ds : List Delegation) (p : Delegation → Bool)
    (h : (ds.map Delegation.delegator).Nodup) :
    ((ds.filter p).map Delegation.delegator).Nodup :=
  h.sublist ((List.filter_sublist ds).map _)

/-- Writing a delegation keeps the ledger keyed by delegator. -/
theorem nodup_setDelegation (ds : List Delegation) (d : Address) (n : Nat)
    (h : (ds.map Delegation.delegator).Nodup) :
    ((setDelegation ds d n).map Delegation.delegator).Nodup := by
  unfold setDelegation
  split
  · exact nodup_filter ds _ h
  · rw [List.map_cons, List.nodup_cons]
    exact ⟨not_mem_filter_ne ds d, nodup_filter ds _ h⟩

/-- The shares a delegator holds are part of the ledger total. -/
theorem sumShares_filter_of_held (ds : List Delegation) (d : Address) (held : Nat)
    (hk : (ds.map Delegation.delegator).Nodup) (hh : heldShares ds d = some held) :
    sumShares (ds.filter (fun r => r.delegator ≠ d)) + held = sumShares ds := by
  induction ds with
  | nil => simp [heldShares] at hh
  | cons r rs ih =>
    rw [List.map_cons, List.nodup_cons] at hk
    by_cases hr : r.delegator = d
    · have hheld : held = r.shares := by
        simp [heldShares, List.find?_cons, hr] at hh
        exact hh.symm
      have hnot : d ∉ rs.map Delegation.delegator := hr ▸ hk.1
      have hf : (r :: rs).filter (fun r => r.delegator ≠ d) = rs := by
        rw [List.filter_cons, if_neg (by simp [hr])]
        exact filter_ne_of_not_mem rs d hnot
      rw [hf, hheld]
      simp [sumShares, Nat.add_comm]
    · have hh2 : heldShares rs d = some held := by
        simpa [heldShares, List.find?_cons, hr] using hh
      have hf : (r :: rs).filter (fun r => r.delegator ≠ d)
          = r :: rs.filter (fun r => r.delegator ≠ d) := by
        rw [List.filter_cons, if_pos (by simp [hr])]
      have := ih hk.2 hh2
      rw [hf]
      simp only [sumShares, List.map_cons, List.sum_cons] at this ⊢
      omega

/-- A delegator without a record is no key of the ledger. -/
theorem not_mem_of_heldShares_none (ds : List Delegation) (d : Address)
    (hh : heldShares ds d = none) : d ∉ ds.map Delegation.delegator := by
  intro h
  obtain ⟨r, hr, hd⟩ := List.mem_map.mp h
  simp only [heldShares, Option.map_eq_none', List.find?_eq_none] at hh
  have := hh r hr
  simp [hd] at this

/-- The ledger total after a delegation is written. -/
theorem sumShares_setDelegation (ds : List Delegation) (d : Address) (n : Nat)
    (hk : (ds.map Delegation.delegator).Nodup) :
    sumShares (setDelegation ds d n) + (heldShares ds d).getD 0 = sumShares ds + n := by
  have hset : sumShares (setDelegation ds d n)
      = sumShares (ds.filter (fun r => r.delegator ≠ d)) + n := by
    unfold setDelegation
    split
    · next h => simp [h]
    · simp [sumShares, Nat.add_comm]
  cases hh : heldShares ds d with
  | none =>
    rw [hset, filter_ne_of_not_mem ds d (not_mem_of_heldShares_none ds d hh)]
    simp
  | some held =>
    have := sumShares_filter_of_held ds d held hk hh
    rw [hset]
    simp only [Option.getD_some]
    omega

end keeper

namespace keeper

open sdk

/-- Adding tokens to a pool side at exchange rate 1 issues as many shares and
keeps the rate. -/
theorem addTokens_unit (p : Pool) (st : Status) (n : Nat) (h : p.tokens st = p.shares st) :
    (p.addTokens st n).2 = n
    ∧ (p.addTokens st n).1.tokens st = p.tokens st + n
    ∧ (p.addTokens st n).1.shares st = p.shares st + n := by
  have hi : sharesOfTokens (p.tokens st) (p.shares st) n = n := by
    rw [h]
    exact sharesOfTokens_unit _ n
  cases st <;> simp only [Pool.tokens, Pool.shares] at hi <;>
    simp [Pool.addTokens, Pool.tokens, Pool.shares, hi]

/-- Redeeming shares from a pool side at exchange rate 1 takes out as many
tokens and keeps the rate. -/
theorem removeShares_unit (p : Pool) (st : Status) (n : Nat) (h : p.tokens st = p.shares st) :
    (p.removeShares st n).2 = n
    ∧ (p.removeShares st n).1.tokens st = p.tokens st - n
    ∧ (p.removeShares st n).1.shares st = p.shares st - n := by
  have hi : tokensOfShares (p.tokens st) (p.shares st) n = n := by
    rw [h]
    exact tokensOfShares_unit _ n
  cases st <;> simp only [Pool.tokens, Pool.shares] at hi <;>
    simp [Pool.removeShares, Pool.tokens, Pool.shares, hi]

/-- An accepted delegation keeps the invariant and counts its tokens as delegated. -/
theorem delegate_inv (k : Keeper) (s s' : State) (f g : Flow) (d : Address) (tokens : Int)
    (hinv : Inv s f) (hstep : delegate k s d tokens = .ok (s', g)) :
    Inv s' { delegated := f.delegated + g.delegated, released := f.released + g.released } := by
  unfold delegate at hstep
  split at hstep
  · cases hstep
  · split at hstep
    · cases hstep
    · obtain ⟨h1, h2, h3⟩ := addTokens_unit s.pool s.validator.status tokens.toNat hinv.rate
      simp only [Except.ok.injEq, Prod.mk.injEq] at hstep
      obtain ⟨hs, hg⟩ := hstep
      subst hs
      subst hg
      have hsum := sumShares_setDelegation s.delegations d
        ((heldShares s.delegations d).getD 0 + (s.pool.addTokens s.validator.status tokens.toNat).2)
        hinv.keyed
      have hacc := hinv.account
      have hl := hinv.ledger
      have hp := hinv.part
      rw [h1] at hsum
      refine ⟨?_, ?_, ?_, ?_, ?_⟩
      · show (s.pool.addTokens s.validator.status tokens.toNat).1.tokens s.validator.status
          = (s.pool.addTokens s.validator.status tokens.toNat).1.shares s.validator.status
        rw [h2, h3, hinv.rate]
      · show s.validator.shares + (s.pool.addTokens s.validator.status tokens.toNat).2
          ≤ (s.pool.addTokens s.validator.status tokens.toNat).1.shares s.validator.status
        rw [h1, h3]
        omega
      · show sumShares (setDelegation s.delegations d
            ((heldShares s.delegations d).getD 0
              + (s.pool.addTokens s.validator.status tokens.toNat).2))
          = s.validator.shares + (s.pool.addTokens s.validator.status tokens.toNat).2
        rw [h1]
        omega
      · exact nodup_setDelegation _ _ _ hinv.keyed
      · show s.validator.shares + (s.pool.addTokens s.validator.status tokens.toNat).2
            + pendingTokens s + (f.released + 0) = f.delegated + tokens.toNat
        rw [h1]
        omega

/-- An accepted undelegation keeps the invariant: the redeemed tokens become pending. -/
theorem undelegate_inv (k : Keeper) (s s' : State) (f g : Flow) (d : Address)
    (shares : Option Int) (percent : Option Rat) (now : Nat)
    (hinv : Inv s f) (hstep : undelegate k s d shares percent now = .ok (s', g)) :
    Inv s' { delegated := f.delegated + g.delegated, released := f.released + g.released } := by
  unfold undelegate at hstep
  split at hstep
  · cases hstep
  · cases hstep
  · split at hstep
    · cases hstep
    · split at hstep
      · cases hstep
      · split at hstep
        · cases hstep
        · next held hheld =>
          simp only [] at hstep
          split at hstep
          · cases hstep
          · next hreq =>
            have hreq2 : requestedShares held shares percent ≤ held := Nat.le_of_not_lt hreq
            obtain ⟨h1, h2, h3⟩ := removeShares_unit s.pool s.validator.status
              (requestedShares held shares percent) hinv.rate
            simp only [Except.ok.injEq, Prod.mk.injEq] at hstep
            obtain ⟨hs, hg⟩ := hstep
            subst hs
            subst hg
            have hfil := sumShares_filter_of_held s.delegations d held hinv.keyed hheld
            have hsum := sumShares_setDelegation s.delegations d
              (held - requestedShares held shares percent) hinv.keyed
            rw [hheld] at hsum
            simp only [Option.getD_some] at hsum
            have hacc := hinv.account
            have hl := hinv.ledger
            have hp := hinv.part
            have hr := hinv.rate
            refine ⟨?_, ?_, ?_, ?_, ?_⟩
            · show (s.pool.removeShares s.validator.status _).1.tokens s.validator.status
                = (s.pool.removeShares s.validator.status _).1.shares s.validator.status
              rw [h2, h3, hinv.rate]
            · show s.validator.shares - requestedShares held shares percent
                ≤ (s.pool.removeShares s.validator.status _).1.shares s.validator.status
              rw [h3]
              omega
            · show sumShares (setDelegation s.delegations d
                  (held - requestedShares held shares percent))
                = s.validator.shares - requestedShares held shares percent
              omega
            · exact nodup_setDelegation _ _ _ hinv.keyed
            · simp only [pendingTokens, List.map_append, List.sum_append, List.map_cons,
                List.map_nil, List.sum_cons, List.sum_nil, h1]
              unfold pendingTokens at hacc
              omega

/-- The balances of a queue split into those due and those not yet due. -/
theorem sum_filter_split (us : List UnbondingDelegation) (p : UnbondingDelegation → Bool) :
    ((us.filter p).map (·.balance)).sum + ((us.filter (fun u => ! p u)).map (·.balance)).sum
      = (us.map (·.balance)).sum := by
  induction us with
  | nil => rfl
  | cons u us ih =>
    cases hp : p u <;> simp [List.filter_cons, hp] <;> omega

/-- The end of a block keeps the invariant: the matured tokens leave the queue
and count as released. -/
theorem endBlock_inv (s : State) (f : Flow) (now : Nat) (hinv : Inv s f) :
    Inv (endBlock s now).1
      { delegated := f.delegated + (endBlock s now).2.delegated,
        released := f.released + (endBlock s now).2.released } := by
  have hsplit := sum_filter_split s.unbonding (fun u => decide (u.completionTime ≤ now))
  have hacc := hinv.account
  refine ⟨hinv.rate, hinv.part, hinv.ledger, hinv.keyed, ?_⟩
  show s.validator.shares
      + ((s.unbonding.filter (fun u => ¬ u.completionTime ≤ now)).map (·.balance)).sum
      + (f.released
          + ((s.unbonding.filter (fun u => u.completionTime ≤ now)).map (·.balance)).sum)
      = f.delegated + 0
  unfold pendingTokens at hacc
  have he : (s.unbonding.filter (fun u => ¬ u.completionTime ≤ now))
      = (s.unbonding.filter (fun u => ! decide (u.completionTime ≤ now))) := by
    congr 1
    funext u
    exact decide_not
  rw [he]
  omega

/-- Every accepted operation keeps the invariant. -/
theorem step_inv (k : Keeper) (s s' : State) (f g : Flow) (op : Op)
    (hinv : Inv s f) (hstep : step k s op = .ok (s', g)) :
    Inv s' { delegated := f.delegated + g.delegated, released := f.released + g.released } := by
  cases op with
  | delegate d tokens => exact delegate_inv k s s' f g d tokens hinv hstep
  | undelegate d shares percent now =>
    exact undelegate_inv k s s' f g d shares percent now hinv hstep
  | endBlock now =>
    simp only [step, Except.ok.injEq] at hstep
    have := endBlock_inv s f now hinv
    rw [hstep] at this
    exact this

/-- A sequence of operations keeps the invariant. -/
theorem run_inv (k : Keeper) (ops : List Op) (s : State) (f : Flow) (hinv : Inv s f) :
    Inv (run k s f ops).1 (run k s f ops).2 := by
  induction ops generalizing s f with
  | nil => exact hinv
  | cons op ops ih =>
    rw [run]
    cases hstep : step k s op with
    | error e => exact ih s f hinv
    | ok r =>
      obtain ⟨s', g⟩ := r
      exact ih s' _ (step_inv k s s' f g op hinv hstep)

/-- Under the invariant the tokens implied by the validator's shares are its shares. -/
theorem impliedTokens_of_inv (s : State) (f : Flow) (hinv : Inv s f) :
    impliedTokens s = s.validator.shares := by
  unfold impliedTokens
  rw [hinv.rate]
  exact tokensOfShares_unit _ _

/-- The state of a freshly created validator satisfies the rate-1 invariant
when its side of the pool is at exchange rate 1. -/
theorem init_inv (status : Status) (pool : Pool) (h : pool.tokens status = pool.shares status) :
    Inv (init status pool) { delegated := 0, released := 0 } :=
  ⟨h, Nat.zero_le _, rfl, List.nodup_nil, rfl⟩

end keeper

/-! ## No value is created at any exchange rate -/

namespace keeper

open sdk

/-- Shares issued for tokens are rounded down: they are worth no more than the tokens. -/
theorem sharesOfTokens_mul_le (T S t : Nat) (hS : S ≠ 0) :
    sharesOfTokens T S t * T ≤ t * S := by
  unfold sharesOfTokens
  rw [if_neg hS]
  exact Nat.div_mul_le_self _ _

/-- Tokens redeemed for shares are rounded down: they are worth no more than the shares. -/
theorem tokensOfShares_mul_le (T S r : Nat) (hS : S ≠ 0) :
    tokensOfShares T S r * S ≤ r * T := by
  unfold tokensOfShares
  rw [if_neg hS]
  exact Nat.div_mul_le_self _ _

/-- The value bound after a delegation: if `V` shares out of `S` are worth at
most `N` tokens at the rate `T / S`, and `i` new shares are worth at most the
`t` tokens paid for them, the `V + i` shares are worth at most `N + t`. -/
theorem value_after_delegate (V T S N i t : Nat) (hS : 0 < S) (hV : V ≤ S)
    (hval : V * T ≤ N * S) (hi : i * T ≤ t * S) :
    (V + i) * (T + t) ≤ (N + t) * (S + i) := by
  obtain ⟨O, rfl⟩ := Nat.exists_eq_add_of_le hV
  obtain ⟨a, ha⟩ := Nat.exists_eq_add_of_le hi
  obtain ⟨b, hb⟩ := Nat.exists_eq_add_of_le hval
  apply Nat.le_of_mul_le_mul_left _ hS
  zify at ha hb ⊢
  have key : ((V : ℤ) + O) * ((N + t) * (V + O + i)) - (V + O) * ((V + i) * (T + t))
      = (V + O) * b + a * O + b * i := by
    linear_combination ((V : ℤ) + O + i) * hb + (O : ℤ) * ha
  have hnn : (0 : ℤ) ≤ (V + O) * b + a * O + b * i := by positivity
  linarith

/-- The value bound after an undelegation: the `out` tokens redeemed for `r`
shares are covered by `N`, and the remaining shares are worth at most what is
left of `N`. -/
theorem value_after_undelegate (V T S N r out : Nat) (hS : 0 < S) (hr : r ≤ V) (hV : V ≤ S)
    (hval : V * T ≤ N * S) (ho : out * S ≤ r * T) :
    out ≤ N ∧ out ≤ T ∧ (V - r) * (T - out) ≤ (N - out) * (S - r) := by
  have hoN : out ≤ N := by
    have h1 : out * S ≤ N * S :=
      le_trans ho (le_trans (Nat.mul_le_mul_right T hr) hval)
    exact Nat.le_of_mul_le_mul_right h1 hS
  have hoT : out ≤ T := by
    have h1 : out * S ≤ T * S := by
      calc out * S ≤ r * T := ho
        _ ≤ S * T := Nat.mul_le_mul_right T (le_trans hr hV)
        _ = T * S := Nat.mul_comm S T
    exact Nat.le_of_mul_le_mul_right h1 hS
  refine ⟨hoN, hoT, ?_⟩
  obtain ⟨q, rfl⟩ := Nat.exists_eq_add_of_le hr
  obtain ⟨O, rfl⟩ := Nat.exists_eq_add_of_le hV
  obtain ⟨n, rfl⟩ := Nat.exists_eq_add_of_le hoN
  obtain ⟨m, rfl⟩ := Nat.exists_eq_add_of_le hoT
  obtain ⟨a, ha⟩ := Nat.exists_eq_add_of_le ho
  obtain ⟨b, hb⟩ := Nat.exists_eq_add_of_le hval
  have e1 : r + q - r = q := by omega
  have e2 : out + m - out = m := by omega
  have e3 : out + n - out = n := by omega
  have e4 : r + q + O - r = q + O := by omega
  rw [e1, e2, e3, e4]
  apply Nat.le_of_mul_le_mul_left _ hS
  zify at ha hb ⊢
  have key : ((r : ℤ) + q + O) * (n * (q + O)) - (r + q + O) * (q * m)
      = a * O + b * (q + O) := by
    linear_combination ((q : ℤ) + O) * hb + (O : ℤ) * ha
  have hnn : (0 : ℤ) ≤ a * O + b * (q + O) := by positivity
  linarith

end keeper

namespace keeper

open sdk

/-- What adding tokens does to the side of the pool it is added to. -/
theorem addTokens_side (p : Pool) (st : Status) (n : Nat) :
    (p.addTokens st n).2 = sharesOfTokens (p.tokens st) (p.shares st) n
    ∧ (p.addTokens st n).1.tokens st = p.tokens st + n
    ∧ (p.addTokens st n).1.shares st
        = p.shares st + sharesOfTokens (p.tokens st) (p.shares st) n := by
  cases st <;> simp [Pool.addTokens, Pool.tokens, Pool.shares]

/-- What redeeming shares does to the side of the pool they are redeemed from. -/
theorem removeShares_side (p : Pool) (st : Status) (n : Nat) :
    (p.removeShares st n).2 = tokensOfShares (p.tokens st) (p.shares st) n
    ∧ (p.removeShares st n).1.tokens st
        = p.tokens st - tokensOfShares (p.tokens st) (p.shares st) n
    ∧ (p.removeShares st n).1.shares st = p.shares st - n := by
  cases st <;> simp [Pool.removeShares, Pool.tokens, Pool.shares]

/-- An accepted delegation keeps the general invariant. -/
theorem delegate_sound (k : Keeper) (s s' : State) (f g : Flow) (d : Address) (tokens : Int)
    (hinv : Sound s f) (hstep : delegate k s d tokens = .ok (s', g)) :
    Sound s' { delegated := f.delegated + g.delegated, released := f.released + g.released } := by
  unfold delegate at hstep
  split at hstep
  · cases hstep
  · next hpos =>
    split at hstep
    · cases hstep
    · obtain ⟨h1, h2, h3⟩ := addTokens_side s.pool s.validator.status tokens.toNat
      simp only [Except.ok.injEq, Prod.mk.injEq] at hstep
      obtain ⟨hs, hg⟩ := hstep
      subst hs
      subst hg
      have ht : 0 < tokens.toNat := by omega
      have hsum := sumShares_setDelegation s.delegations d
        ((heldShares s.delegations d).getD 0 + (s.pool.addTokens s.validator.status tokens.toNat).2)
        hinv.keyed
      have hl := hinv.ledger
      have hp := hinv.part
      have hset := hinv.settled
      have hval := hinv.value
      have hback := hinv.backed
      generalize hT : s.pool.tokens s.validator.status = T at *
      generalize hS : s.pool.shares s.validator.status = S at *
      generalize hI : sharesOfTokens T S tokens.toNat = i at *
      have hi0 : S = 0 → i = tokens.toNat := by
        intro h0
        rw [← hI, h0]
        simp [sharesOfTokens]
      have hi1 : S ≠ 0 → i * T ≤ tokens.toNat * S := by
        intro h0
        rw [← hI]
        exact sharesOfTokens_mul_le T S _ h0
      refine ⟨?_, ?_, ?_, ?_, ?_, ?_⟩
      · show (s.pool.addTokens s.validator.status tokens.toNat).1.shares s.validator.status = 0
          → (s.pool.addTokens s.validator.status tokens.toNat).1.tokens s.validator.status = 0
        rw [h2, h3]
        intro h0
        by_cases hz : S = 0
        · have := hi0 hz
          omega
        · omega
      · show s.validator.shares + (s.pool.addTokens s.validator.status tokens.toNat).2
          ≤ (s.pool.addTokens s.validator.status tokens.toNat).1.shares s.validator.status
        rw [h1, h3]
        omega
      · show sumShares (setDelegation s.delegations d
            ((heldShares s.delegations d).getD 0
              + (s.pool.addTokens s.validator.status tokens.toNat).2))
          = s.validator.shares + (s.pool.addTokens s.validator.status tokens.toNat).2
        omega
      · exact nodup_setDelegation _ _ _ hinv.keyed
      · show pendingTokens s + (f.released + 0) ≤ f.delegated + tokens.toNat
        omega
      · show (s.validator.shares + (s.pool.addTokens s.validator.status tokens.toNat).2)
            * (s.pool.addTokens s.validator.status tokens.toNat).1.tokens s.validator.status
          ≤ (f.delegated + tokens.toNat - (pendingTokens s + (f.released + 0)))
            * (s.pool.addTokens s.validator.status tokens.toNat).1.shares s.validator.status
        rw [h1, h2, h3]
        obtain ⟨N, hN⟩ := Nat.exists_eq_add_of_le hset
        have e1 : f.delegated - (pendingTokens s + f.released) = N := by omega
        have e2 : f.delegated + tokens.toNat - (pendingTokens s + (f.released + 0))
            = N + tokens.toNat := by omega
        rw [e1] at hval
        rw [e2]
        by_cases hz : S = 0
        · have hV0 : s.validator.shares = 0 := by omega
          have hT0 : T = 0 := hback hz
          rw [hV0, hT0, hz, hi0 hz]
          simp only [Nat.zero_add]
          exact Nat.mul_le_mul_right _ (Nat.le_add_left _ _)
        · exact value_after_delegate _ _ _ _ _ _ (Nat.pos_of_ne_zero hz) hp hval (hi1 hz)

/-- An accepted undelegation keeps the general invariant. -/
theorem undelegate_sound (k : Keeper) (s s' : State) (f g : Flow) (d : Address)
    (shares : Option Int) (percent : Option Rat) (now : Nat)
    (hinv : Sound s f) (hstep : undelegate k s d shares percent now = .ok (s', g)) :
    Sound s' { delegated := f.delegated + g.delegated, released := f.released + g.released } := by
  unfold undelegate at hstep
  split at hstep
  · cases hstep
  · cases hstep
  · split at hstep
    · cases hstep
    · split at hstep
      · cases hstep
      · split at hstep
        · cases hstep
        · next held hheld =>
          simp only [] at hstep
          split at hstep
          · cases hstep
          · next hreq =>
            generalize hR : requestedShares held shares percent = r at *
            have hreq2 : r ≤ held := Nat.le_of_not_lt hreq
            obtain ⟨h1, h2, h3⟩ := removeShares_side s.pool s.validator.status r
            simp only [Except.ok.injEq, Prod.mk.injEq] at hstep
            obtain ⟨hs, hg⟩ := hstep
            subst hs
            subst hg
            have hfil := sumShares_filter_of_held s.delegations d held hinv.keyed hheld
            have hsum := sumShares_setDelegation s.delegations d (held - r) hinv.keyed
            rw [hheld] at hsum
            simp only [Option.getD_some] at hsum
            have hl := hinv.ledger
            have hp := hinv.part
            have hset := hinv.settled
            have hval := hinv.value
            have hback := hinv.backed
            have hrV : r ≤ s.validator.shares := by omega
            have hpend : pendingTokens
                { s with
                  pool := (s.pool.removeShares s.validator.status r).1
                  validator := { s.validator with shares := s.validator.shares - r }
                  delegations := setDelegation s.delegations d (held - r)
                  unbonding := s.unbonding ++
                    [{ delegator := d, balance := (s.pool.removeShares s.validator.status r).2,
                       completionTime := now + k.unbondingPeriod }] }
                = pendingTokens s + (s.pool.removeShares s.validator.status r).2 := by
              simp [pendingTokens]
            generalize hT : s.pool.tokens s.validator.status = T at *
            generalize hS : s.pool.shares s.validator.status = S at *
            generalize hO : tokensOfShares T S r = out at *
            obtain ⟨N, hN⟩ := Nat.exists_eq_add_of_le hset
            have e1 : f.delegated - (pendingTokens s + f.released) = N := by omega
            rw [e1] at hval
            have hfacts : out ≤ N ∧ out ≤ T
                ∧ (s.validator.shares - r) * (T - out) ≤ (N - out) * (S - r)
                ∧ (S - r = 0 → T - out = 0) := by
              by_cases hz : S = 0
              · have hr0 : r = 0 := by omega
                have ho0 : out = 0 := by
                  rw [← hO, hz, hr0]
                  simp [tokensOfShares]
                have hT0 : T = 0 := hback hz
                have hV0 : s.validator.shares = 0 := by omega
                rw [hr0, ho0, hz, hT0, hV0]
                simp
              · have hmul : out * S ≤ r * T := by
                  rw [← hO]
                  exact tokensOfShares_mul_le T S r hz
                obtain ⟨a1, a2, a3⟩ := value_after_undelegate _ _ _ _ _ _
                  (Nat.pos_of_ne_zero hz) hrV hp hval hmul
                refine ⟨a1, a2, a3, ?_⟩
                intro h0
                have hrs : r = S := by omega
                have : out = T := by
                  rw [← hO, hrs]
                  simp only [tokensOfShares, if_neg hz]
                  exact Nat.mul_div_cancel_left T (Nat.pos_of_ne_zero hz)
                omega
            obtain ⟨f1, f2, f3, f4⟩ := hfacts
            refine ⟨?_, ?_, ?_, ?_, ?_, ?_⟩
            · show (s.pool.removeShares s.validator.status r).1.shares s.validator.status = 0
                → (s.pool.removeShares s.validator.status r).1.tokens s.validator.status = 0
              rw [h2, h3]
              exact f4
            · show s.validator.shares - r
                ≤ (s.pool.removeShares s.validator.status r).1.shares s.validator.status
              rw [h3]
              omega
            · show sumShares (setDelegation s.delegations d (held - r)) = s.validator.shares - r
              omega
            · exact nodup_setDelegation _ _ _ hinv.keyed
            · show pendingTokens _ + (f.released + 0) ≤ f.delegated + 0
              rw [hpend, h1]
              omega
            · show (s.validator.shares - r)
                  * (s.pool.removeShares s.validator.status r).1.tokens s.validator.status
                ≤ (f.delegated + 0 - (pendingTokens _ + (f.released + 0)))
                  * (s.pool.removeShares s.validator.status r).1.shares s.validator.status
              rw [hpend, h1, h2, h3]
              have e2 : f.delegated + 0 - (pendingTokens s + out + (f.released + 0)) = N - out := by
                omega
              rw [e2]
              exact f3

/-- The end of a block keeps the general invariant. -/
theorem endBlock_sound (s : State) (f : Flow) (now : Nat) (hinv : Sound s f) :
    Sound (endBlock s now).1
      { delegated := f.delegated + (endBlock s now).2.delegated,
        released := f.released + (endBlock s now).2.released } := by
  have hsplit := sum_filter_split s.unbonding (fun u => decide (u.completionTime ≤ now))
  have he : (s.unbonding.filter (fun u => ¬ u.completionTime ≤ now))
      = (s.unbonding.filter (fun u => ! decide (u.completionTime ≤ now))) := by
    congr 1
    funext u
    exact decide_not
  have hset := hinv.settled
  have hval := hinv.value
  unfold pendingTokens at hset hval
  have hsame : ((s.unbonding.filter (fun u => ¬ u.completionTime ≤ now)).map (·.balance)).sum
      + (f.released
        + ((s.unbonding.filter (fun u => u.completionTime ≤ now)).map (·.balance)).sum)
      = (s.unbonding.map (·.balance)).sum + f.released := by
    rw [he]
    omega
  refine ⟨hinv.backed, hinv.part, hinv.ledger, hinv.keyed, ?_, ?_⟩
  · show ((s.unbonding.filter (fun u => ¬ u.completionTime ≤ now)).map (·.balance)).sum
        + (f.released
          + ((s.unbonding.filter (fun u => u.completionTime ≤ now)).map (·.balance)).sum)
        ≤ f.delegated + 0
    rw [hsame]
    omega
  · show s.validator.shares * s.pool.tokens s.validator.status
        ≤ (f.delegated + 0
            - (((s.unbonding.filter (fun u => ¬ u.completionTime ≤ now)).map (·.balance)).sum
              + (f.released
                + ((s.unbonding.filter
                    (fun u => u.completionTime ≤ now)).map (·.balance)).sum)))
          * s.pool.shares s.validator.status
    rw [hsame]
    exact hval

/-- Every accepted operation keeps the general invariant. -/
theorem step_sound (k : Keeper) (s s' : State) (f g : Flow) (op : Op)
    (hinv : Sound s f) (hstep : step k s op = .ok (s', g)) :
    Sound s' { delegated := f.delegated + g.delegated, released := f.released + g.released } := by
  cases op with
  | delegate d tokens => exact delegate_sound k s s' f g d tokens hinv hstep
  | undelegate d shares percent now =>
    exact undelegate_sound k s s' f g d shares percent now hinv hstep
  | endBlock now =>
    simp only [step, Except.ok.injEq] at hstep
    have := endBlock_sound s f now hinv
    rw [hstep] at this
    exact this

/-- A sequence of operations keeps the general invariant. -/
theorem run_sound (k : Keeper) (ops : List Op) (s : State) (f : Flow) (hinv : Sound s f) :
    Sound (run k s f ops).1 (run k s f ops).2 := by
  induction ops generalizing s f with
  | nil => exact hinv
  | cons op ops ih =>
    rw [run]
    cases hstep : step k s op with
    | error e => exact ih s f hinv
    | ok r =>
      obtain ⟨s', g⟩ := r
      exact ih s' _ (step_sound k s s' f g op hinv hstep)

/-- Under the general invariant the tokens implied by the validator's shares,
the pending tokens and the released tokens never exceed the tokens delegated. -/
theorem implied_le_of_sound (s : State) (f : Flow) (hinv : Sound s f) :
    impliedTokens s + pendingTokens s + f.released ≤ f.delegated := by
  have hset := hinv.settled
  have hval := hinv.value
  have hp := hinv.part
  have himp : impliedTokens s ≤ f.delegated - (pendingTokens s + f.released) := by
    unfold impliedTokens tokensOfShares
    split
    · next h0 => omega
    · next h0 =>
      apply Nat.div_le_of_le_mul
      rw [Nat.mul_comm (s.pool.shares s.validator.status)]
      exact hval
  omega

/-- The state of a freshly created validator satisfies the general invariant
when its side of the pool holds tokens only against shares. -/
theorem init_sound (status : Status) (pool : Pool)
    (h : pool.shares status = 0 → pool.tokens status = 0) :
    Sound (init status pool) { delegated := 0, released := 0 } := by
  refine ⟨h, Nat.zero_le _, rfl, List.nodup_nil, Nat.le_refl _, ?_⟩
  show 0 * pool.tokens status ≤ _
  rw [Nat.zero_mul]
  exact Nat.zero_le _

/-- No operation changes the status of the validator. -/
theorem step_status (k : Keeper) (s s' : State) (g : Flow) (op : Op)
    (hstep : step k s op = .ok (s', g)) : s'.validator.status = s.validator.status := by
  cases op with
  | delegate d tokens =>
    simp only [step, delegate] at hstep
    split at hstep
    · cases hstep
    · split at hstep
      · cases hstep
      · simp only [Except.ok.injEq, Prod.mk.injEq] at hstep
        rw [← hstep.1]
  | undelegate d shares percent now =>
    simp only [step, undelegate] at hstep
    split at hstep
    · cases hstep
    · cases hstep
    · split at hstep
      · cases hstep
      · split at hstep
        · cases hstep
        · split at hstep
          · cases hstep
          · split at hstep
            · cases hstep
            · simp only [Except.ok.injEq, Prod.mk.injEq] at hstep
              rw [← hstep.1]
  | endBlock now =>
    simp only [step, Except.ok.injEq] at hstep
    have h := congrArg (fun r => r.1.validator.status) hstep
    exact h.symm

/-- A sequence of operations leaves the status of the validator as it is. -/
theorem run_status (k : Keeper) (ops : List Op) (s : State) (f : Flow) :
    (run k s f ops).1.validator.status = s.validator.status := by
  induction ops generalizing s f with
  | nil => rfl
  | cons op ops ih =>
    rw [run]
    cases hstep : step k s op with
    | error e => exact ih s f
    | ok r =>
      obtain ⟨s', g⟩ := r
      exact (ih s' _).trans (step_status k s s' g op hstep)

end keeper

/-- C7, as stated, fails. In a pool side holding 10 tokens against 5 shares, a
delegation of 3 tokens is issued 1 share, which implies 2 tokens: the sum is 2
while 3 tokens were delegated and none released, and undelegating everything
releases 2 of the 3. In a pool side holding 5 tokens against no shares, the
same delegation implies 8 tokens. So the equality does not hold for every
sequence of operations on a fixed validator. -/
theorem C7_conservation_fails_off_unit_rate :
    (keeper.impliedTokens
        (keeper.run ⟨4, 10⟩ (keeper.init .Bonded ⟨10, 0, 5, 0⟩) ⟨0, 0⟩ [.delegate [1] 3]).1 = 2
      ∧ keeper.pendingTokens
        (keeper.run ⟨4, 10⟩ (keeper.init .Bonded ⟨10, 0, 5, 0⟩) ⟨0, 0⟩ [.delegate [1] 3]).1 = 0
      ∧ (keeper.run ⟨4, 10⟩ (keeper.init .Bonded ⟨10, 0, 5, 0⟩) ⟨0, 0⟩ [.delegate [1] 3]).2
        = ⟨3, 0⟩)
    ∧ (keeper.run ⟨4, 10⟩ (keeper.init .Bonded ⟨10, 0, 5, 0⟩) ⟨0, 0⟩
        [.delegate [1] 3, .undelegate [1] none (some 1) 0, .endBlock 10]).2 = ⟨3, 2⟩
    ∧ keeper.impliedTokens
        (keeper.run ⟨4, 10⟩ (keeper.init .Bonded ⟨5, 0, 0, 0⟩) ⟨0, 0⟩ [.delegate [1] 3]).1 = 8
    ∧ ¬ (∀ (k : keeper.Keeper) (status : keeper.Status) (pool : keeper.Pool)
          (ops : List keeper.Op),
          keeper.impliedTokens (keeper.run k (keeper.init status pool) ⟨0, 0⟩ ops).1
              + keeper.pendingTokens (keeper.run k (keeper.init status pool) ⟨0, 0⟩ ops).1
            = (keeper.run k (keeper.init status pool) ⟨0, 0⟩ ops).2.delegated
              - (keeper.run k (keeper.init status pool) ⟨0, 0⟩ ops).2.released) := by
  refine ⟨by decide, by decide, by decide, fun h => ?_⟩
  exact absurd (h ⟨4, 10⟩ .Bonded ⟨10, 0, 5, 0⟩ [.delegate [1] 3]) (by decide)

/-- C7, amended: for every sequence of delegate and undelegate operations (and
block ends, which release matured entries) on a fixed validator, started when
the validator is created in a pool whose side for the validator holds tokens
only against shares, the tokens implied by the outstanding shares plus the
tokens held in pending UnbondingDelegation entries never exceed the total
tokens ever delegated minus the tokens already released (no value is created,
the rounding goes to the pool); the two are equal when that side of the pool
starts at exchange rate 1; and the operations leave the validator's status as
it was. -/
theorem C7_delegation_creates_no_tokens (k : keeper.Keeper) (status : keeper.Status)
    (pool : keeper.Pool) (ops : List keeper.Op)
    (hpool : pool.shares status = 0 → pool.tokens status = 0) :
    keeper.impliedTokens (keeper.run k (keeper.init status pool) ⟨0, 0⟩ ops).1
        + keeper.pendingTokens (keeper.run k (keeper.init status pool) ⟨0, 0⟩ ops).1
      ≤ (keeper.run k (keeper.init status pool) ⟨0, 0⟩ ops).2.delegated
        - (keeper.run k (keeper.init status pool) ⟨0, 0⟩ ops).2.released
    ∧ (keeper.run k (keeper.init status pool) ⟨0, 0⟩ ops).2.released
      ≤ (keeper.run k (keeper.init status pool) ⟨0, 0⟩ ops).2.delegated
    ∧ (pool.tokens status = pool.shares status →
        keeper.impliedTokens (keeper.run k (keeper.init status pool) ⟨0, 0⟩ ops).1
            + keeper.pendingTokens (keeper.run k (keeper.init status pool) ⟨0, 0⟩ ops).1
          = (keeper.run k (keeper.init status pool) ⟨0, 0⟩ ops).2.delegated
            - (keeper.run k (keeper.init status pool) ⟨0, 0⟩ ops).2.released)
    ∧ (keeper.run k (keeper.init status pool) ⟨0, 0⟩ ops).1.validator.status = status := by
  have hsound := keeper.run_sound k ops _ _ (keeper.init_sound status pool hpool)
  have hle := keeper.implied_le_of_sound _ _ hsound
  refine ⟨by omega, by omega, ?_, keeper.run_status k ops _ _⟩
  intro hrate
  have hinv := keeper.run_inv k ops _ _ (keeper.init_inv status pool hrate)
  have himp := keeper.impliedTokens_of_inv _ _ hinv
  have hacc := hinv.account
  rw [himp]
  omega

/-- C7, amended, at concrete inputs. In a pool side of 10 tokens against 5
shares, delegating 3 tokens, undelegating all of them and ending the block
leaves nothing implied or pending, with 2 of the 3 tokens released. In a pool
side of 7 tokens against 7 shares, delegating 5 and 3 tokens and undelegating 2
shares leaves 6 tokens implied and 2 pending, which is the 8 delegated. -/
theorem C7_delegation_creates_no_tokens_witness :
    ((keeper.Pool.shares ⟨10, 0, 5, 0⟩ .Bonded = 0 → keeper.Pool.tokens ⟨10, 0, 5, 0⟩ .Bonded = 0)
      ∧ keeper.impliedTokens (keeper.run ⟨4, 10⟩ (keeper.init .Bonded ⟨10, 0, 5, 0⟩) ⟨0, 0⟩
            [.delegate [1] 3, .undelegate [1] none (some 1) 0, .endBlock 10]).1
          + keeper.pendingTokens (keeper.run ⟨4, 10⟩ (keeper.init .Bonded ⟨10, 0, 5, 0⟩) ⟨0, 0⟩
            [.delegate [1] 3, .undelegate [1] none (some 1) 0, .endBlock 10]).1
        ≤ (keeper.run ⟨4, 10⟩ (keeper.init .Bonded ⟨10, 0, 5, 0⟩) ⟨0, 0⟩
            [.delegate [1] 3, .undelegate [1] none (some 1) 0, .endBlock 10]).2.delegated
          - (keeper.run ⟨4, 10⟩ (keeper.init .Bonded ⟨10, 0, 5, 0⟩) ⟨0, 0⟩
            [.delegate [1] 3, .undelegate [1] none (some 1) 0, .endBlock 10]).2.released)
    ∧ ((keeper.Pool.shares ⟨7, 3, 7, 3⟩ .Bonded = 0 → keeper.Pool.tokens ⟨7, 3, 7, 3⟩ .Bonded = 0)
      ∧ keeper.Pool.tokens ⟨7, 3, 7, 3⟩ .Bonded = keeper.Pool.shares ⟨7, 3, 7, 3⟩ .Bonded
      ∧ keeper.impliedTokens (keeper.run ⟨4, 10⟩ (keeper.init .Bonded ⟨7, 3, 7, 3⟩) ⟨0, 0⟩
            [.delegate [1] 5, .delegate [2] 3, .undelegate [1] (some 2) none 100]).1
          + keeper.pendingTokens (keeper.run ⟨4, 10⟩ (keeper.init .Bonded ⟨7, 3, 7, 3⟩) ⟨0, 0⟩
            [.delegate [1] 5, .delegate [2] 3, .undelegate [1] (some 2) none 100]).1
        = (keeper.run ⟨4, 10⟩ (keeper.init .Bonded ⟨7, 3, 7, 3⟩) ⟨0, 0⟩
            [.delegate [1] 5, .delegate [2] 3, .undelegate [1] (some 2) none 100]).2.delegated
          - (keeper.run ⟨4, 10⟩ (keeper.init .Bonded ⟨7, 3, 7, 3⟩) ⟨0, 0⟩
            [.delegate [1] 5, .delegate [2] 3, .undelegate [1] (some 2) none 100]).2.released) :=
  ⟨⟨by decide,
      (C7_delegation_creates_no_tokens ⟨4, 10⟩ .Bonded ⟨10, 0, 5, 0⟩
        [.delegate [1] 3, .undelegate [1] none (some 1) 0, .endBlock 10] (by decide)).1⟩,
    ⟨by decide, by decide,
      (C7_delegation_creates_no_tokens ⟨4, 10⟩ .Bonded ⟨7, 3, 7, 3⟩
        [.delegate [1] 5, .delegate [2] 3, .undelegate [1] (some 2) none 100]
        (by decide)).2.2.1 (by decide)⟩⟩
